import Mathlib

/-!
Verification of the postgresparser core against its specification.

The Go source is shallowly embedded: Go strings are modelled as `List Char`
(every string reaching the scanners below is processed rune-by-rune or over
ASCII-only regions, where byte offsets and rune offsets coincide on the code
paths exercised), Go `int` values as `Int`, fallible returns as `Option`.
Each definition mirrors one Go function of the repository and keeps its name.
-/

namespace PG

/-- Go `isASCIISpace` (utility_recovery.go): the six ASCII whitespace bytes. -/
def isASCIISpace (c : Char) : Bool :=
  c = ' ' || c = '\t' || c = '\n' || c = '\r' || c = Char.ofNat 11 || c = Char.ofNat 12

/-- Go `isASCIIAlpha` (utility_recovery.go). -/
def isASCIIAlpha (c : Char) : Bool :=
  ('a' ≤ c && c ≤ 'z') || ('A' ≤ c && c ≤ 'Z')

/-- Go `toUpperASCII` (utility_recovery.go). -/
def toUpperASCII (c : Char) : Char :=
  if 'a' ≤ c && c ≤ 'z' then Char.ofNat (c.toNat - 32) else c

/-- Go `isWordChar` (utility_recovery.go): identifier/value characters. -/
def isWordChar (c : Char) : Bool :=
  isASCIIAlpha c || ('0' ≤ c && c ≤ '9') || c = '_' || c = '.'

/-- Go `equalFoldASCIIWord` (utility_recovery.go): length check plus
per-character ASCII-uppercase comparison. -/
def equalFoldASCIIWord : List Char → List Char → Bool
  | [], [] => true
  | v :: vs, w :: ws => toUpperASCII v = w && equalFoldASCIIWord vs ws
  | _, _ => false

/-- Go `isSettingName` (utility_recovery.go). -/
def isSettingName (s : List Char) : Bool :=
  !s.isEmpty && s.all isWordChar

/-- `unicode.IsSpace` as used by Go `strings.TrimSpace`: the Unicode
White_Space code points. -/
def isGoSpace (c : Char) : Bool :=
  c = ' ' || c = '\t' || c = '\n' || c = '\r' || c = Char.ofNat 11 || c = Char.ofNat 12 ||
  c = Char.ofNat 0x85 || c = Char.ofNat 0xA0 || c = Char.ofNat 0x1680 ||
  (Char.ofNat 0x2000 ≤ c && c ≤ Char.ofNat 0x200A) ||
  c = Char.ofNat 0x2028 || c = Char.ofNat 0x2029 || c = Char.ofNat 0x202F ||
  c = Char.ofNat 0x205F || c = Char.ofNat 0x3000

/-- Go `strings.TrimSpace` on the rune sequence. -/
def goTrimSpace (s : List Char) : List Char :=
  ((s.dropWhile isGoSpace).reverse.dropWhile isGoSpace).reverse

/-- The command kinds recognized by `detectUtilityCommandPrefix`. -/
inductive UtilityCommand where
  | noneCmd
  | setCmd
  | showCmd
  | resetCmd
deriving DecidableEq, Repr

/-- Go `detectUtilityCommandPrefix` (utility_recovery.go): skip ASCII spaces,
take the leading ASCII-alpha run, and match it case-insensitively against
SET / SHOW / RESET by length. -/
def detectUtilityCommandPrefix (sql : List Char) : UtilityCommand :=
  let rest := sql.dropWhile isASCIISpace
  if rest.isEmpty then UtilityCommand.noneCmd
  else
    let w := rest.takeWhile isASCIIAlpha
    if w.isEmpty then UtilityCommand.noneCmd
    else if w.length = 3 then
      if equalFoldASCIIWord w "SET".toList then UtilityCommand.setCmd else UtilityCommand.noneCmd
    else if w.length = 4 then
      if equalFoldASCIIWord w "SHOW".toList then UtilityCommand.showCmd else UtilityCommand.noneCmd
    else if w.length = 5 then
      if equalFoldASCIIWord w "RESET".toList then UtilityCommand.resetCmd else UtilityCommand.noneCmd
    else UtilityCommand.noneCmd

/-- The leading whole word of the input as scanned by
`detectUtilityCommandPrefix`: ASCII spaces skipped, then the maximal
ASCII-alpha run. -/
def leadingWord (sql : List Char) : List Char :=
  (sql.dropWhile isASCIISpace).takeWhile isASCIIAlpha

/-- Position after the ASCII-space run starting at `i` (the `for ... isASCIISpace`
skip loops of `parseSetRecoveryShape`). -/
def skipSpacesFrom (t : List Char) (i : Nat) : Nat :=
  i + ((t.drop i).takeWhile isASCIISpace).length

/-- Position after the word-character run starting at `i`. -/
def wordEndFrom (t : List Char) (i : Nat) : Nat :=
  i + ((t.drop i).takeWhile isWordChar).length

/-- Go `nextWord` closure inside `parseSetRecoveryShape`: skips spaces, reads a
word-character run. Returns (`some (word, start)` on success, else `none`)
paired with the updated cursor. -/
def nextWord (t : List Char) (i : Nat) : Option (List Char × Nat) × Nat :=
  let j := skipSpacesFrom t i
  if t.length ≤ j then (none, j)
  else
    let e := wordEndFrom t j
    if e = j then (none, j)
    else (some ((t.drop j).take (e - j), j), e)

/-- Go `stripTrailingSemicolon` step of `isSingleStatementUtilityCandidate`:
drop one trailing `;` (then re-trim) when present. -/
def stripTrailingSemicolon (t : List Char) : List Char :=
  if t.getLast? = some ';' then goTrimSpace t.dropLast else t

/-- Go `isSingleStatementUtilityCandidate` (utility_recovery.go). -/
def isSingleStatementUtilityCandidate (sql : List Char) : Bool :=
  let t := goTrimSpace sql
  if t.isEmpty then false
  else
    let t2 := stripTrailingSemicolon t
    !t2.isEmpty && !t2.contains ';'

/-- Go `parseSetRecoveryShape` (utility_recovery.go): strict
`SET [SESSION|LOCAL] <setting> (=|TO) <rhs> [;]` shape parse. Returns the
uppercased setting name, uppercased rhs token, rhs start offset, and the
trimmed SQL. -/
def parseSetRecoveryShape (sql : List Char) :
    Option (List Char × List Char × Nat × List Char) :=
  let t := goTrimSpace sql
  if t.isEmpty then none
  else
    match nextWord t 0 with
    | (none, _) => none
    | (some (w, _), i1) =>
      if equalFoldASCIIWord w "SET".toList then
        let i2 :=
          match nextWord t i1 with
          | (some (peek, _), ip) =>
            if equalFoldASCIIWord peek "SESSION".toList ||
               equalFoldASCIIWord peek "LOCAL".toList then ip
            else ip - peek.length
          | (none, ij) => ij
        match nextWord t i2 with
        | (none, _) => none
        | (some (sw, _), i4) =>
          if isSettingName sw then
            let i5 := skipSpacesFrom t i4
            if t.length ≤ i5 then none
            else
              let opRes : Option Nat :=
                if t.get? i5 = some '=' then some (i5 + 1)
                else
                  match nextWord t i5 with
                  | (none, _) => none
                  | (some (op, _), ie) =>
                    if equalFoldASCIIWord op "TO".toList then some ie else none
              match opRes with
              | none => none
              | some i6 =>
                let i7 := skipSpacesFrom t i6
                if t.length ≤ i7 then none
                else
                  let rhsStart := i7
                  let rhsEnd := wordEndFrom t i7
                  if rhsEnd = rhsStart then none
                  else
                    let rhs := (t.drop rhsStart).take (rhsEnd - rhsStart)
                    let i8 := skipSpacesFrom t rhsEnd
                    let i9 :=
                      if t.get? i8 = some ';' then skipSpacesFrom t (i8 + 1) else i8
                    if i9 = t.length then
                      some (sw.map toUpperASCII, rhs.map toUpperASCII, rhsStart, t)
                    else none
          else none
      else none

/-- Go `recoverableSetLevels` (utility_recovery.go). -/
def recoverableSetLevels : List (List Char) :=
  ["WARNING", "NOTICE", "DEBUG", "INFO", "EXCEPTION", "ERROR"].map String.toList

/-- Go `SyntaxError` (errors file): line is 1-based, column 0-based. -/
structure SyntaxError where
  line : Int
  column : Int
  message : String
  tokenIndex : Int
deriving DecidableEq, Repr

/-- Go `lineAndColumnAtByteOffset` inner loop. -/
def lineColAux : List Char → Nat → Int → Int → Int × Int
  | [], _, line, col => (line, col)
  | _ :: _, 0, line, col => (line, col)
  | c :: rest, k + 1, line, col =>
    if c = '\n' then lineColAux rest k (line + 1) 0 else lineColAux rest k line (col + 1)

/-- Go `lineAndColumnAtByteOffset` (utility_recovery.go): 1-based line and
0-based rune column at an offset. -/
def lineAndColumnAtByteOffset (s : List Char) (off : Int) : Int × Int :=
  if off < 0 then (1, 0) else lineColAux s off.toNat 1 0

/-- Go `hasSyntaxErrorAtToken` (utility_recovery.go). -/
def hasSyntaxErrorAtToken (errs : List SyntaxError) (line column tokenLen : Int) : Bool :=
  if errs.isEmpty then false
  else
    let tl := if tokenLen ≤ 0 then 1 else tokenLen
    let maxColumn := column + tl
    errs.any fun e => e.line = line && column ≤ e.column && e.column ≤ maxColumn

/-- Go `isRecoverableSetStatement` (utility_recovery.go). -/
def isRecoverableSetStatement (sql : List Char) (errs : List SyntaxError) : Bool :=
  match parseSetRecoveryShape sql with
  | none => false
  | some (setting, rhsToken, rhsStart, trimmed) =>
    if setting.isEmpty then false
    else if !recoverableSetLevels.contains rhsToken then false
    else
      let lc := lineAndColumnAtByteOffset trimmed (Int.ofNat rhsStart)
      hasSyntaxErrorAtToken errs lc.1 lc.2 (Int.ofNat rhsToken.length)

/-- Go `shouldRecoverUtilityParseError` (utility_recovery.go). -/
def shouldRecoverUtilityParseError (sql : List Char) (errs : List SyntaxError) : Bool :=
  let cmd := detectUtilityCommandPrefix sql
  if cmd = UtilityCommand.noneCmd then false
  else if isSingleStatementUtilityCandidate sql then
    match cmd with
    | UtilityCommand.setCmd => isRecoverableSetStatement sql errs
    | _ => false
  else false

/-- A token of the shared stream as read by the correlator: its stable index
and 1-based line (`statementTokenBounds` / `statementLineBounds` read exactly
these two attributes). -/
structure Token where
  tokenIndex : Int
  line : Int
deriving DecidableEq, Repr

/-- A CST statement node's first and last token, absent when unavailable. -/
structure Stmt where
  start : Option Token
  stop : Option Token
deriving DecidableEq, Repr

/-- Go `statementTokenBounds` (batch entry file): start/stop token indices, or
`(-1, -1)` when either end is missing. -/
def statementTokenBounds (s : Stmt) : Int × Int :=
  match s.start, s.stop with
  | some a, some b => (a.tokenIndex, b.tokenIndex)
  | _, _ => (-1, -1)

/-- Go `statementLineBounds` (batch entry file): start/stop line numbers with
the stop line clamped up to the start line, or `(0, 0)` when both tokens are
missing. -/
def statementLineBounds (s : Stmt) : Int × Int :=
  match s.start, s.stop with
  | none, none => (0, 0)
  | st, sp =>
    let startLine := match st with | some t => t.line | none => 0
    let stopLine := match sp with | some t => t.line | none => 0
    if 0 < startLine ∧ stopLine < startLine then (startLine, startLine)
    else (startLine, stopLine)

/-- First index in a list satisfying the predicate (the shape of every
`for i, stmt := range stmts` search loop in the correlator). -/
def firstIdxWhere {β : Type} (p : β → Bool) : List β → Option Nat
  | [] => none
  | x :: xs => if p x then some 0 else (firstIdxWhere p xs).map (· + 1)

/-- Go `statementIndexForSyntaxError` (batch entry file): token-bound scan,
then line-bound scan, then the before-first-statement fallback, else -1. -/
def statementIndexForSyntaxError (stmts : List Stmt) (e : SyntaxError) : Int :=
  if stmts.isEmpty then -1
  else
    let tokenHit : Option Nat :=
      if 0 ≤ e.tokenIndex then
        firstIdxWhere (fun s =>
          let b := statementTokenBounds s
          !(b.1 < 0 || b.2 < b.1) && (b.1 ≤ e.tokenIndex && e.tokenIndex ≤ b.2)) stmts
      else none
    match tokenHit with
    | some i => (i : Int)
    | none =>
      match firstIdxWhere (fun s =>
          let lb := statementLineBounds s
          !(lb.1 = 0 && lb.2 = 0) && (lb.1 ≤ e.line && e.line ≤ lb.2)) stmts with
      | some i => (i : Int)
      | none =>
        let firstStart := (statementLineBounds (stmts.headD ⟨none, none⟩)).1
        if 0 < firstStart ∧ e.line < firstStart then 0 else -1

/-- The correlation cascade exactly as the specification words it (claim C2):
first statement whose token bounds contain the error's token index (when the
error carries one; bounds unavailable when an end is missing), else first
statement whose clamped line bounds contain the error's line, else statement 0
when the error's line is strictly before the first statement's start line,
else no statement at all. -/
def specStatementIndexForSyntaxError (stmts : List Stmt) (e : SyntaxError) : Option Nat :=
  let byToken : Option Nat :=
    if 0 ≤ e.tokenIndex then
      firstIdxWhere (fun s =>
        match s.start, s.stop with
        | some a, some b => decide (a.tokenIndex ≤ e.tokenIndex ∧ e.tokenIndex ≤ b.tokenIndex)
        | _, _ => false) stmts
    else none
  match byToken with
  | some i => some i
  | none =>
    match firstIdxWhere (fun s =>
        let lb := statementLineBounds s
        decide (lb.1 ≤ e.line ∧ e.line ≤ lb.2)) stmts with
    | some i => some i
    | none =>
      match stmts.head? with
      | some s0 => if e.line < (statementLineBounds s0).1 then some 0 else none
      | none => none

/-- Go `ParseWarning`. -/
structure ParseWarning where
  code : String
  message : String
deriving DecidableEq, Repr

/-- Go `ParseWarningCodeSyntaxError`. -/
def ParseWarningCodeSyntaxError : String := "SYNTAX_ERROR"

/-- The warning message `fmt.Sprintf("line %d:%d %s", ...)` of `ParseSQLAll`. -/
def syntaxWarningMessage (e : SyntaxError) : String :=
  "line " ++ toString e.line ++ ":" ++ toString e.column ++ " " ++ e.message

/-- Go `StatementParseResult`: per-statement batch entry with 1-based index,
raw statement text, optional IR and statement-scoped warnings. -/
structure StatementParseResult (α : Type) where
  index : Nat
  rawSQL : String
  query : Option α
  warnings : List ParseWarning
deriving DecidableEq, Repr

/-- A parsed CST statement node as consumed by `ParseSQLAll`, carrying the
oracle outcomes of the external calls: `text` is the `statementText` rendering
and `ir` the `parseStatementToIR` result (`none` models an extraction error). -/
structure StmtNode (α : Type) where
  stmt : Stmt
  text : String
  ir : Option α
deriving DecidableEq, Repr

/-- One iteration of the first `ParseSQLAll` loop: the entry starts with
`Index = i+1` and `RawSQL`; the query is extracted only for nonempty text and
stays absent on extraction failure. -/
def initialStatementResult {α : Type} (i : Nat) (s : StmtNode α) : StatementParseResult α :=
  { index := i + 1
    rawSQL := s.text
    query := if s.text = "" then none else s.ir
    warnings := [] }

/-- The first `ParseSQLAll` loop over all statement nodes. -/
def buildStatements {α : Type} : Nat → List (StmtNode α) → List (StatementParseResult α)
  | _, [] => []
  | i, s :: rest => initialStatementResult i s :: buildStatements (i + 1) rest

/-- In-place update of one list position (`statements[idx] = ...`). -/
def updateAt {β : Type} : List β → Nat → (β → β) → List β
  | [], _, _ => []
  | x :: xs, 0, f => f x :: xs
  | x :: xs, n + 1, f => x :: updateAt xs n f

/-- One iteration of the second `ParseSQLAll` loop: correlate one syntax error
and append a SYNTAX_ERROR warning to the owning entry; out-of-range indices
are skipped. -/
def attachOneSyntaxError {α : Type} (stmtBounds : List Stmt)
    (entries : List (StatementParseResult α)) (e : SyntaxError) :
    List (StatementParseResult α) :=
  if 0 ≤ statementIndexForSyntaxError stmtBounds e ∧
     statementIndexForSyntaxError stmtBounds e < (entries.length : Int) then
    updateAt entries (statementIndexForSyntaxError stmtBounds e).toNat (fun st =>
      { st with warnings :=
          st.warnings ++ [⟨ParseWarningCodeSyntaxError, syntaxWarningMessage e⟩] })
  else entries

/-- The second `ParseSQLAll` loop over all collected syntax errors. -/
def attachSyntaxErrorWarnings {α : Type} (stmtBounds : List Stmt) :
    List SyntaxError → List (StatementParseResult α) → List (StatementParseResult α)
  | [], entries => entries
  | e :: rest, entries =>
    attachSyntaxErrorWarnings stmtBounds rest (attachOneSyntaxError stmtBounds entries e)

/-- Go `ParseBatchResult`. -/
structure ParseBatchResult (α : Type) where
  statements : List (StatementParseResult α)
  totalStatements : Nat
  parsedStatements : Nat
  hasFailures : Bool
deriving DecidableEq, Repr

/-- Go `ParseSQLAll` (batch entry file) after a successful tolerant
`prepareParseState`: build per-statement entries, attach correlated warnings,
compute the failure flag. -/
def ParseSQLAll {α : Type} (stmts : List (StmtNode α)) (syntaxErrors : List SyntaxError) :
    ParseBatchResult α :=
  let base := buildStatements 0 stmts
  let parsedCount := base.countP fun st => st.query.isSome
  let statements := attachSyntaxErrorWarnings (stmts.map StmtNode.stmt) syntaxErrors base
  let hasFailures :=
    if parsedCount ≠ statements.length then true
    else statements.any fun st => !st.warnings.isEmpty
  { statements := statements
    totalStatements := statements.length
    parsedStatements := parsedCount
    hasFailures := hasFailures }

/-- The warning-independent projection of a batch entry. -/
def entryCore {α : Type} (st : StatementParseResult α) : Nat × String × Option α :=
  (st.index, st.rawSQL, st.query)

/-- Go `decodeDollarQuotedString` (ddl_comment.go): the delimiter runs to the
second `$`, must fit twice, and must close the literal. -/
def decodeDollarQuotedString (raw : List Char) : Option (List Char) :=
  match raw with
  | [] => none
  | c :: rest =>
    if c ≠ '$' then none
    else
      match firstIdxWhere (fun x => x = '$') rest with
      | none => none
      | some secondDollar =>
        let delim := raw.take (secondDollar + 2)
        if raw.length < delim.length * 2 then none
        else if !delim.isSuffixOf raw then none
        else some ((raw.drop delim.length).take (raw.length - 2 * delim.length))

/-- `strings.ReplaceAll(inner, "''", "'")` as used by `decodeSingleQuoted`. -/
def collapseDoubledQuotes : List Char → List Char
  | [] => []
  | '\'' :: '\'' :: rest => '\'' :: collapseDoubledQuotes rest
  | c :: rest => c :: collapseDoubledQuotes rest

/-- Go `decodeSingleQuoted` (ddl_comment.go). -/
def decodeSingleQuoted (raw : List Char) : Option (List Char) :=
  if raw.length < 2 ∨ raw.head? ≠ some '\'' ∨ raw.getLast? ≠ some '\'' then none
  else some (collapseDoubledQuotes ((raw.drop 1).dropLast))

/-- Go `escapedStringReplacer` / `decodeEscapedString` (ddl_comment.go):
left-to-right single pass over the seven C-style escapes. -/
def decodeEscapedString : List Char → List Char
  | [] => []
  | '\\' :: '\\' :: rest => '\\' :: decodeEscapedString rest
  | '\\' :: '\'' :: rest => '\'' :: decodeEscapedString rest
  | '\\' :: 'n' :: rest => '\n' :: decodeEscapedString rest
  | '\\' :: 'r' :: rest => '\r' :: decodeEscapedString rest
  | '\\' :: 't' :: rest => '\t' :: decodeEscapedString rest
  | '\\' :: 'b' :: rest => Char.ofNat 8 :: decodeEscapedString rest
  | '\\' :: 'f' :: rest => Char.ofNat 12 :: decodeEscapedString rest
  | c :: rest => c :: decodeEscapedString rest

/-- The `strings.HasPrefix(strings.ToUpper(trimmed), ..)` checks of
`decodeCommentStringLiteral`, modelled with ASCII uppercasing: Unicode
uppercasing agrees on the compared characters, since no character outside
ASCII uppercases to `E`, `N`, `U`, `&` or `'`. Two-character form. -/
def upperHasPrefixTwo (s : List Char) (a b : Char) : Bool :=
  match s with
  | c0 :: c1 :: _ => toUpperASCII c0 = a && toUpperASCII c1 = b
  | _ => false

/-- Three-character form of the uppercased prefix check (`U&'`). -/
def upperHasPrefixThree (s : List Char) (a b c : Char) : Bool :=
  match s with
  | c0 :: c1 :: c2 :: _ => toUpperASCII c0 = a && toUpperASCII c1 = b && toUpperASCII c2 = c
  | _ => false

/-- Go `decodeCommentStringLiteral` (ddl_comment.go): dollar-quoted first,
then `E'`/`N'`, then `U&'`, then plain single quotes, else the trimmed
original text. -/
def decodeCommentStringLiteral (raw : List Char) : List Char :=
  let trimmed := goTrimSpace raw
  if trimmed.isEmpty then []
  else
    match (if trimmed.head? = some '$' then decodeDollarQuotedString trimmed else none) with
    | some decoded => decoded
    | none =>
      if upperHasPrefixTwo trimmed 'E' '\'' || upperHasPrefixTwo trimmed 'N' '\'' then
        match decodeSingleQuoted (trimmed.drop 1) with
        | none => trimmed
        | some decoded => decodeEscapedString decoded
      else if upperHasPrefixThree trimmed 'U' '&' '\'' then
        match decodeSingleQuoted (trimmed.drop 2) with
        | none => trimmed
        | some decoded => decoded
      else
        match decodeSingleQuoted trimmed with
        | none => trimmed
        | some decoded => decoded

/-- The dollar-quote delimiter `"$" + tag + "$"` as computed by
`decodeDollarQuotedString`. -/
def dollarDelim (tag : List Char) : List Char := '$' :: (tag ++ ['$'])

/-- Go `decodeCommentText` (ddl_comment.go) on the raw `contextText` output:
empty text or a (case-insensitive) NULL decodes to the empty string. -/
def decodeCommentText (raw : List Char) : List Char :=
  if raw.isEmpty || equalFoldASCIIWord raw "NULL".toList then []
  else decodeCommentStringLiteral raw

/-- `strings.ToLower` restricted to ASCII, as applied by
`normalizeCreateTableColumnName` to ASCII identifier characters. -/
def toLowerASCII (c : Char) : Char :=
  if 'A' ≤ c && c ≤ 'Z' then Char.ofNat (c.toNat + 32) else c

/-- Modelled from the spec: `trimIdentQuotes` is not under src/ (only its
callers are). Identifier case-folding strips stray outer double-quote
characters, matching `ident.TrimQuotes` which is `strings.Trim(s, quote)`. -/
def trimIdentQuotes (s : List Char) : List Char :=
  ((s.dropWhile (fun c => c = '"')).reverse.dropWhile (fun c => c = '"')).reverse

/-- `strings.ReplaceAll(inner, two quotes, one quote)` for double quotes, as
used by `normalizeCreateTableColumnName`. -/
def collapseDoubledDoubleQuotes : List Char → List Char
  | [] => []
  | '"' :: '"' :: rest => '"' :: collapseDoubledDoubleQuotes rest
  | c :: rest => c :: collapseDoubledDoubleQuotes rest

/-- Go `normalizeCreateTableColumnName` (ddl population file): a name wrapped
in one pair of double quotes keeps case with doubled-quote unescaping;
otherwise lower-case with stray outer quotes stripped. -/
def normalizeCreateTableColumnName (name : List Char) : List Char :=
  let trimmed := goTrimSpace name
  if trimmed.isEmpty then []
  else if 2 ≤ trimmed.length ∧ trimmed.head? = some '"' ∧ trimmed.getLast? = some '"' then
    collapseDoubledDoubleQuotes ((trimmed.drop 1).dropLast)
  else (trimIdentQuotes trimmed).map toLowerASCII

/-- Go `isCreateTableConstraintToken` (CREATE TABLE comment splitter file). -/
def isCreateTableConstraintToken (token : List Char) : Bool :=
  let u := (trimIdentQuotes (goTrimSpace token)).map toUpperASCII
  u = "CONSTRAINT".toList || u = "PRIMARY".toList || u = "UNIQUE".toList ||
  u = "FOREIGN".toList || u = "CHECK".toList || u = "EXCLUDE".toList || u = "LIKE".toList

/-- The quoted-identifier scan of `readLeadingIdentifierToken`: given the
characters after the opening quote, the consumed segment up to and including
the closing quote (doubled quotes stay escaped), or `none` if unterminated. -/
def quotedIdentEnd : List Char → Option (List Char)
  | [] => none
  | '"' :: '"' :: rest => (quotedIdentEnd rest).map (fun t => '"' :: '"' :: t)
  | '"' :: _ => some ['"']
  | c :: rest => (quotedIdentEnd rest).map (fun t => c :: t)

/-- Go `readLeadingIdentifierToken` (CREATE TABLE comment splitter file). -/
def readLeadingIdentifierToken (s : List Char) : List Char :=
  let runes := goTrimSpace s
  match runes with
  | [] => []
  | c :: rest =>
    if c = '"' then
      match quotedIdentEnd rest with
      | some seg => '"' :: seg
      | none => []
    else runes.takeWhile (fun x => !(isGoSpace x || x = ',' || x = '(' || x = ')'))

/-- Go `extractCreateTableColumnNameFromElement` (CREATE TABLE comment
splitter file). -/
def extractCreateTableColumnNameFromElement (element : List Char) : List Char :=
  let trimmed := goTrimSpace element
  if trimmed.isEmpty then []
  else
    let token := readLeadingIdentifierToken trimmed
    if token.isEmpty then []
    else if isCreateTableConstraintToken token then []
    else token

/-- Modelled from the spec: `parseDollarTag` is not under src/ (only its
splitter callers are). A dollar-quote opener at position `i` is `$`, an
optional tag of letters, digits and underscores, then a second `$`. -/
def dollarTagChar (c : Char) : Bool :=
  isASCIIAlpha c || ('0' ≤ c && c ≤ '9') || c = '_'

/-- Modelled from the spec: the tag of a dollar-quote opener starting at
position `i`, when one starts there. -/
def parseDollarTag (runes : List Char) (i : Nat) : Option (List Char) :=
  if runes.get? i = some '$' then
    let tag := (runes.drop (i + 1)).takeWhile dollarTagChar
    if runes.get? (i + 1 + tag.length) = some '$' then some tag else none
  else none

/-- Modelled from the spec: `hasDollarTerminator` is not under src/; it
checks that the closing delimiter `$tag$` starts at position `i`. -/
def hasDollarTerminator (runes : List Char) (i : Nat) (tag : List Char) : Bool :=
  decide ((runes.drop i).take (tag.length + 2) = '$' :: (tag ++ ['$']))

/-- Go `createTableElementComments` (CREATE TABLE comment splitter file). -/
structure createTableElementComments where
  element : List Char
  comments : List (List Char)
deriving DecidableEq, Repr

/-- Go `createTableElementSplitter` state. -/
structure createTableElementSplitter where
  elements : List createTableElementComments
  current : List Char
  pendingComments : List (List Char)
  depth : Int
  inSingle : Bool
  inDouble : Bool
  inDollar : Bool
  dollarTag : List Char
  inBlockComment : Bool
  hasContent : Bool
deriving DecidableEq, Repr

/-- The splitter's zero state. -/
def initSplitter : createTableElementSplitter :=
  ⟨[], [], [], 0, false, false, false, [], false, false⟩

/-- Go `flushCurrent` (CREATE TABLE comment splitter file): emit the trimmed
accumulator with its pending comments, dropping empty elements silently. -/
def flushCurrent (s : createTableElementSplitter) : createTableElementSplitter :=
  let elem := goTrimSpace s.current
  if elem.isEmpty then
    { s with current := [], pendingComments := [], hasContent := false }
  else
    { s with elements := s.elements ++ [⟨elem, s.pendingComments⟩],
             current := [], pendingComments := [], hasContent := false }

/-- One iteration of the `splitCreateTableElementsWithComments` scan loop:
processes the rune at position `i` and returns the next position with the
updated state. -/
def splitStep (runes : List Char) (i : Nat) (s : createTableElementSplitter) :
    Nat × createTableElementSplitter :=
  match runes.get? i with
  | none => (i + 1, s)
  | some r =>
    if s.inBlockComment then
      if r = '*' ∧ runes.get? (i + 1) = some '/' then
        (i + 2, { s with inBlockComment := false })
      else (i + 1, s)
    else if s.inDollar then
      if r = '$' ∧ hasDollarTerminator runes i s.dollarTag then
        (i + s.dollarTag.length + 2,
          { s with current := s.current ++ r :: (runes.drop (i + 1)).take (s.dollarTag.length + 1),
                   inDollar := false, dollarTag := [] })
      else (i + 1, { s with current := s.current ++ [r] })
    else if s.inSingle then
      if r = '\'' then
        if runes.get? (i + 1) = some '\'' then
          (i + 2, { s with current := s.current ++ [r, '\''] })
        else (i + 1, { s with current := s.current ++ [r], inSingle := false })
      else (i + 1, { s with current := s.current ++ [r] })
    else if s.inDouble then
      if r = '"' then
        if runes.get? (i + 1) = some '"' then
          (i + 2, { s with current := s.current ++ [r, '"'] })
        else (i + 1, { s with current := s.current ++ [r], inDouble := false })
      else (i + 1, { s with current := s.current ++ [r] })
    else if r = '-' ∧ runes.get? (i + 1) = some '-' then
      let commentLen := ((runes.drop (i + 2)).takeWhile (fun c => !(c = '\n' || c = '\r'))).length
      (i + 2 + commentLen,
        if !s.hasContent then
          if (goTrimSpace ((runes.drop (i + 2)).take commentLen)).isEmpty then s
          else { s with pendingComments :=
            s.pendingComments ++ [goTrimSpace ((runes.drop (i + 2)).take commentLen)] }
        else s)
    else if r = '/' ∧ runes.get? (i + 1) = some '*' then
      (i + 2, { s with inBlockComment := true })
    else if r = '\'' then
      (i + 1, { s with inSingle := true, current := s.current ++ [r], hasContent := true })
    else if r = '"' then
      (i + 1, { s with inDouble := true, current := s.current ++ [r], hasContent := true })
    else
      match (if r = '$' then parseDollarTag runes i else none) with
      | some tag =>
        (i + (tag.length + 2),
          { s with inDollar := true, dollarTag := tag,
                   current := s.current ++ (runes.drop i).take (tag.length + 2),
                   hasContent := true })
      | none =>
        if r = ',' ∧ s.depth = 0 then (i + 1, flushCurrent s)
        else
          let s1 :=
            if r = '(' then { s with depth := s.depth + 1 }
            else if r = ')' ∧ 0 < s.depth then { s with depth := s.depth - 1 }
            else s
          (i + 1, { s1 with current := s1.current ++ [r],
                            hasContent := if !isGoSpace r then true else s1.hasContent })

/-- The fuelled scan loop of `splitCreateTableElementsWithComments`; every
step advances the position by at least one, so `runes.length` fuel runs the
loop to completion. -/
def splitLoop (runes : List Char) : Nat → Nat → createTableElementSplitter →
    createTableElementSplitter
  | 0, _, s => s
  | fuel + 1, i, s =>
    if i < runes.length then
      splitLoop runes fuel (splitStep runes i s).1 (splitStep runes i s).2
    else s

/-- Go `splitCreateTableElementsWithComments` (CREATE TABLE comment splitter
file). -/
def splitCreateTableElementsWithComments (body : List Char) :
    List createTableElementComments :=
  if body.isEmpty then []
  else (flushCurrent (splitLoop body body.length 0 initSplitter)).elements

/-- The scan state of `extractCreateTableBody`. -/
structure bodyScanState where
  openIdx : Option Nat
  depth : Int
  inSingle : Bool
  inDouble : Bool
  inDollar : Bool
  dollarTag : List Char
  inLineComment : Bool
  inBlockComment : Bool
deriving DecidableEq, Repr

/-- One iteration of the `extractCreateTableBody` scan: either the early
return value (text inside the outermost parentheses) or the next position and
state. -/
def bodyStep (runes : List Char) (i : Nat) (st : bodyScanState) :
    Sum (List Char) (Nat × bodyScanState) :=
  match runes.get? i with
  | none => Sum.inr (i + 1, st)
  | some r =>
    if st.inLineComment then
      if r = '\n' ∨ r = '\r' then Sum.inr (i + 1, { st with inLineComment := false })
      else Sum.inr (i + 1, st)
    else if st.inBlockComment then
      if r = '*' ∧ runes.get? (i + 1) = some '/' then
        Sum.inr (i + 2, { st with inBlockComment := false })
      else Sum.inr (i + 1, st)
    else if st.inDollar then
      if r = '$' ∧ hasDollarTerminator runes i st.dollarTag then
        Sum.inr (i + st.dollarTag.length + 2, { st with inDollar := false, dollarTag := [] })
      else Sum.inr (i + 1, st)
    else if st.inSingle then
      if r = '\'' then
        if runes.get? (i + 1) = some '\'' then Sum.inr (i + 2, st)
        else Sum.inr (i + 1, { st with inSingle := false })
      else Sum.inr (i + 1, st)
    else if st.inDouble then
      if r = '"' then
        if runes.get? (i + 1) = some '"' then Sum.inr (i + 2, st)
        else Sum.inr (i + 1, { st with inDouble := false })
      else Sum.inr (i + 1, st)
    else if r = '-' ∧ runes.get? (i + 1) = some '-' then
      Sum.inr (i + 2, { st with inLineComment := true })
    else if r = '/' ∧ runes.get? (i + 1) = some '*' then
      Sum.inr (i + 2, { st with inBlockComment := true })
    else if r = '\'' then Sum.inr (i + 1, { st with inSingle := true })
    else if r = '"' then Sum.inr (i + 1, { st with inDouble := true })
    else
      match (if r = '$' then parseDollarTag runes i else none) with
      | some tag =>
        Sum.inr (i + (tag.length + 2), { st with inDollar := true, dollarTag := tag })
      | none =>
        if r = '(' then
          match st.openIdx with
          | none => Sum.inr (i + 1, { st with openIdx := some i, depth := 1 })
          | some _ =>
            if 0 < st.depth then Sum.inr (i + 1, { st with depth := st.depth + 1 })
            else Sum.inr (i + 1, st)
        else if r = ')' then
          if 0 < st.depth then
            if st.depth = 1 ∧ st.openIdx.isSome then
              Sum.inl ((runes.take i).drop (st.openIdx.getD 0 + 1))
            else Sum.inr (i + 1, { st with depth := st.depth - 1 })
          else Sum.inr (i + 1, st)
        else Sum.inr (i + 1, st)

/-- The fuelled loop of `extractCreateTableBody`. -/
def bodyLoop (runes : List Char) : Nat → Nat → bodyScanState → Option (List Char)
  | 0, _, _ => none
  | fuel + 1, i, st =>
    if i < runes.length then
      match bodyStep runes i st with
      | Sum.inl result => some result
      | Sum.inr next => bodyLoop runes fuel next.1 next.2
    else none

/-- Go `extractCreateTableBody` (CREATE TABLE comment splitter file): the text
inside the first top-level parentheses pair, skipping strings and comments. -/
def extractCreateTableBody (sql : List Char) : List Char :=
  match bodyLoop sql sql.length 0 ⟨none, 0, false, false, false, [], false, false⟩ with
  | some body => body
  | none => []

/-- Go map assignment `commentsByColumn[k] = lines` on the association-list
model of the column-to-comments map. -/
def commentsMapInsert (m : List (List Char × List (List Char))) (k : List Char)
    (v : List (List Char)) : List (List Char × List (List Char)) :=
  match m with
  | [] => [(k, v)]
  | (k0, v0) :: rest => if k0 = k then (k, v) :: rest else (k0, v0) :: commentsMapInsert rest k v

/-- The element loop of `extractCreateTableFieldCommentsByColumn`. -/
def commentsMapFromElements : List createTableElementComments →
    List (List Char × List (List Char)) → List (List Char × List (List Char))
  | [], m => m
  | e :: rest, m =>
    if e.comments.isEmpty then commentsMapFromElements rest m
    else if (extractCreateTableColumnNameFromElement e.element).isEmpty then
      commentsMapFromElements rest m
    else if (normalizeCreateTableColumnName
        (extractCreateTableColumnNameFromElement e.element)).isEmpty then
      commentsMapFromElements rest m
    else if ((e.comments.map goTrimSpace).filter (fun l => !l.isEmpty)).isEmpty then
      commentsMapFromElements rest m
    else
      commentsMapFromElements rest
        (commentsMapInsert m
          (normalizeCreateTableColumnName (extractCreateTableColumnNameFromElement e.element))
          ((e.comments.map goTrimSpace).filter (fun l => !l.isEmpty)))

/-- Go `extractCreateTableFieldCommentsByColumn` (CREATE TABLE comment
splitter file). -/
def extractCreateTableFieldCommentsByColumn (createStmtSQL : List Char) :
    List (List Char × List (List Char)) :=
  let body := extractCreateTableBody createStmtSQL
  if body.isEmpty then []
  else
    let elements := splitCreateTableElementsWithComments body
    if elements.isEmpty then []
    else commentsMapFromElements elements []

theorem equalFoldASCIIWord_length {a b : List Char} (h : equalFoldASCIIWord a b = true) :
    a.length = b.length := by
  induction a generalizing b with
  | nil => cases b with
    | nil => rfl
    | cons x xs => simp [equalFoldASCIIWord] at h
  | cons x xs ih =>
    cases b with
    | nil => simp [equalFoldASCIIWord] at h
    | cons y ys =>
      simp only [equalFoldASCIIWord, Bool.and_eq_true] at h
      simp [ih h.2]

theorem shouldRecover_eq_false_of_not_candidate {sql : List Char}
    (h : isSingleStatementUtilityCandidate sql = false) (errs : List SyntaxError) :
    shouldRecoverUtilityParseError sql errs = false := by
  unfold shouldRecoverUtilityParseError
  by_cases hc : detectUtilityCommandPrefix sql = UtilityCommand.noneCmd <;> simp [hc, h]

theorem recoverableSetLevels_ne_nil {x : List Char} (h : x ∈ recoverableSetLevels) :
    x ≠ [] := by
  simp only [recoverableSetLevels, List.map, List.mem_cons, List.not_mem_nil, or_false] at h
  rcases h with rfl | rfl | rfl | rfl | rfl | rfl <;> decide

/-- C1: the utility-recovery heuristic is conservative about error location.
`shouldRecoverUtilityParseError "SET foo = warning extra" errs` is false for
every error list (the strict shape parse rejects the trailing token); and
whenever the input does parse to the strict SET shape with a recognized rhs
token at line `L`, column `C`, length `n`, the heuristic returns true only if
some supplied syntax error has `line = L` and `column ∈ [C, C + n]`. -/
theorem C1_recovery_error_location :
    (∀ errs : List SyntaxError,
      shouldRecoverUtilityParseError "SET foo = warning extra".toList errs = false) ∧
    (∀ (sql : List Char) (errs : List SyntaxError)
      (setting rhsToken : List Char) (rhsStart : Nat) (trimmed : List Char),
      parseSetRecoveryShape sql = some (setting, rhsToken, rhsStart, trimmed) →
      rhsToken ∈ recoverableSetLevels →
      shouldRecoverUtilityParseError sql errs = true →
      ∃ e ∈ errs,
        e.line = (lineAndColumnAtByteOffset trimmed (rhsStart : Int)).1 ∧
        (lineAndColumnAtByteOffset trimmed (rhsStart : Int)).2 ≤ e.column ∧
        e.column ≤ (lineAndColumnAtByteOffset trimmed (rhsStart : Int)).2 +
          (rhsToken.length : Int)) := by
  constructor
  · intro errs
    rfl
  · intro sql errs setting rhsToken rhsStart trimmed hshape hmem htrue
    unfold shouldRecoverUtilityParseError at htrue
    by_cases hc : detectUtilityCommandPrefix sql = UtilityCommand.noneCmd
    · simp [hc] at htrue
    · by_cases hcand : isSingleStatementUtilityCandidate sql
      · simp only [hcand, if_true, hc, if_false] at htrue
        have hrec : isRecoverableSetStatement sql errs = true := by
          cases hdet : detectUtilityCommandPrefix sql <;> rw [hdet] at htrue <;>
            first | exact htrue | simp at htrue
        unfold isRecoverableSetStatement at hrec
        rw [hshape] at hrec
        have hcontains : recoverableSetLevels.contains rhsToken = true := by
          exact List.elem_eq_true_of_mem hmem
        have hne : rhsToken ≠ [] := recoverableSetLevels_ne_nil hmem
        have hlen : ¬ ((rhsToken.length : Int) ≤ 0) := by
          have h0 : 0 < rhsToken.length := List.length_pos.mpr hne
          omega
        unfold hasSyntaxErrorAtToken at hrec
        by_cases hset : setting.isEmpty
        · simp [hset] at hrec
        · by_cases herrs : errs.isEmpty
          · simp [hset, hcontains, herrs] at hrec
          · simp only [hset, hcontains, herrs, Bool.not_true, Bool.not_false,
              Bool.false_eq_true, if_false, Int.ofNat_eq_coe, hlen] at hrec
            rw [List.any_eq_true] at hrec
            obtain ⟨e, hemem, hp⟩ := hrec
            refine ⟨e, hemem, ?_⟩
            simp only [Bool.and_eq_true, decide_eq_true_eq] at hp
            exact ⟨hp.1.1, hp.1.2, hp.2⟩
      · simp [hc, hcand] at htrue

/-- Witness for C1 at concrete inputs: the first conjunct applied to a
nonempty error list, the second applied to `SET foo = warning` with an error
at the rhs token location. -/
theorem C1_recovery_error_location_witness :
    shouldRecoverUtilityParseError "SET foo = warning extra".toList
      [⟨1, 10, "mismatched input", -1⟩] = false ∧
    (∃ e ∈ ([⟨1, 10, "mismatched input", -1⟩] : List SyntaxError),
      e.line = (lineAndColumnAtByteOffset "SET foo = warning".toList (Int.ofNat 10)).1 ∧
      (lineAndColumnAtByteOffset "SET foo = warning".toList (Int.ofNat 10)).2 ≤ e.column ∧
      e.column ≤ (lineAndColumnAtByteOffset "SET foo = warning".toList (Int.ofNat 10)).2 +
        Int.ofNat ("WARNING".toList).length) := by
  refine ⟨C1_recovery_error_location.1 _, ?_⟩
  exact C1_recovery_error_location.2 "SET foo = warning".toList
    [⟨1, 10, "mismatched input", -1⟩] "FOO".toList "WARNING".toList 10
    "SET foo = warning".toList (by decide) (by decide) (by decide)

/-- C6: strict eligibility preconditions independent of the error list: a
leading word of SHOW or RESET is never recovered; a leading word other than
SET/SHOW/RESET is never recovered; and input that still contains a `;` after
stripping at most one trailing semicolon is never recovered. -/
theorem C6_eligibility_preconditions :
    (∀ (sql : List Char) (errs : List SyntaxError),
      (equalFoldASCIIWord (leadingWord sql) "SHOW".toList = true ∨
       equalFoldASCIIWord (leadingWord sql) "RESET".toList = true) →
      shouldRecoverUtilityParseError sql errs = false) ∧
    (∀ (sql : List Char) (errs : List SyntaxError),
      equalFoldASCIIWord (leadingWord sql) "SET".toList = false →
      equalFoldASCIIWord (leadingWord sql) "SHOW".toList = false →
      equalFoldASCIIWord (leadingWord sql) "RESET".toList = false →
      shouldRecoverUtilityParseError sql errs = false) ∧
    (∀ (sql : List Char) (errs : List SyntaxError),
      (stripTrailingSemicolon (goTrimSpace sql)).contains ';' = true →
      shouldRecoverUtilityParseError sql errs = false) := by
  refine ⟨?_, ?_, ?_⟩
  · intro sql errs h
    replace h : equalFoldASCIIWord (leadingWord sql) ['S', 'H', 'O', 'W'] = true ∨
        equalFoldASCIIWord (leadingWord sql) ['R', 'E', 'S', 'E', 'T'] = true := h
    have hdet : detectUtilityCommandPrefix sql = UtilityCommand.showCmd ∨
        detectUtilityCommandPrefix sql = UtilityCommand.resetCmd := by
      unfold detectUtilityCommandPrefix
      rcases h with h | h
      · have hlen : (leadingWord sql).length = 4 := by
          simpa using equalFoldASCIIWord_length h
        unfold leadingWord at h hlen
        by_cases hrest : (sql.dropWhile isASCIISpace).isEmpty
        · rw [List.isEmpty_iff] at hrest
          rw [hrest] at hlen
          simp at hlen
        · simp only [hrest, if_false]
          have hw : ¬ ((sql.dropWhile isASCIISpace).takeWhile isASCIIAlpha).isEmpty := by
            rw [List.isEmpty_iff]
            intro hnil
            rw [hnil] at hlen
            simp at hlen
          simp [hw, hlen, h]
      · have hlen : (leadingWord sql).length = 5 := by
          simpa using equalFoldASCIIWord_length h
        unfold leadingWord at h hlen
        by_cases hrest : (sql.dropWhile isASCIISpace).isEmpty
        · rw [List.isEmpty_iff] at hrest
          rw [hrest] at hlen
          simp at hlen
        · simp only [hrest, if_false]
          have hw : ¬ ((sql.dropWhile isASCIISpace).takeWhile isASCIIAlpha).isEmpty := by
            rw [List.isEmpty_iff]
            intro hnil
            rw [hnil] at hlen
            simp at hlen
          simp [hw, hlen, h]
    unfold shouldRecoverUtilityParseError
    rcases hdet with hdet | hdet <;> rw [hdet] <;>
      by_cases hcand : isSingleStatementUtilityCandidate sql <;> simp [hcand]
  · intro sql errs h1 h2 h3
    replace h1 : equalFoldASCIIWord (leadingWord sql) ['S', 'E', 'T'] = false := h1
    replace h2 : equalFoldASCIIWord (leadingWord sql) ['S', 'H', 'O', 'W'] = false := h2
    replace h3 : equalFoldASCIIWord (leadingWord sql) ['R', 'E', 'S', 'E', 'T'] = false := h3
    have hdet : detectUtilityCommandPrefix sql = UtilityCommand.noneCmd := by
      unfold detectUtilityCommandPrefix
      unfold leadingWord at h1 h2 h3
      by_cases hrest : (sql.dropWhile isASCIISpace).isEmpty
      · simp [hrest]
      · simp only [hrest, if_false]
        by_cases hw : ((sql.dropWhile isASCIISpace).takeWhile isASCIIAlpha).isEmpty
        · simp [hw]
        · simp [hw, h1, h2, h3]
    unfold shouldRecoverUtilityParseError
    simp [hdet]
  · intro sql errs h
    apply shouldRecover_eq_false_of_not_candidate _ errs
    unfold isSingleStatementUtilityCandidate
    by_cases ht : (goTrimSpace sql).isEmpty
    · simp [ht]
    · simp [ht]
      intro _
      exact List.mem_of_elem_eq_true h

/-- Witness for C6 at concrete inputs: SHOW input, RESET input, a SETTINGS
input, and a two-statement input. -/
theorem C6_eligibility_preconditions_witness :
    shouldRecoverUtilityParseError "SHOW all".toList [⟨1, 5, "m", -1⟩] = false ∧
    shouldRecoverUtilityParseError "RESET timezone".toList [⟨1, 6, "m", -1⟩] = false ∧
    shouldRecoverUtilityParseError "SETTINGS x = y".toList [⟨1, 0, "m", -1⟩] = false ∧
    shouldRecoverUtilityParseError "SET a = warning; SET b = warning".toList
      [⟨1, 8, "m", -1⟩] = false := by
  refine ⟨?_, ?_, ?_, ?_⟩
  · exact C6_eligibility_preconditions.1 _ _ (Or.inl (by decide))
  · exact C6_eligibility_preconditions.1 _ _ (Or.inr (by decide))
  · exact C6_eligibility_preconditions.2.1 _ _ (by decide) (by decide) (by decide)
  · exact C6_eligibility_preconditions.2.2 _ _ (by decide)

theorem firstIdxWhere_congr {β : Type} {p q : β → Bool} :
    ∀ {l : List β}, (∀ x ∈ l, p x = q x) → firstIdxWhere p l = firstIdxWhere q l := by
  intro l
  induction l with
  | nil => intro _; rfl
  | cons x xs ih =>
    intro h
    simp only [firstIdxWhere, h x (List.mem_cons_self x xs),
      ih fun y hy => h y (List.mem_cons_of_mem x hy)]

theorem tokenBoundsPred_eq (e : SyntaxError) (s : Stmt)
    (hstart : ∀ t, s.start = some t → 0 ≤ t.tokenIndex)
    (hstop : ∀ t, s.stop = some t → 0 ≤ t.tokenIndex) :
    (!((statementTokenBounds s).1 < 0 || (statementTokenBounds s).2 < (statementTokenBounds s).1) &&
      ((statementTokenBounds s).1 ≤ e.tokenIndex && e.tokenIndex ≤ (statementTokenBounds s).2)) =
    (match s.start, s.stop with
     | some a, some b => decide (a.tokenIndex ≤ e.tokenIndex ∧ e.tokenIndex ≤ b.tokenIndex)
     | _, _ => false) := by
  rcases s with ⟨st, sp⟩
  cases st with
  | none => cases sp <;> simp [statementTokenBounds]
  | some a =>
    cases sp with
    | none => simp [statementTokenBounds]
    | some b =>
      have ha := hstart a rfl
      have hb := hstop b rfl
      simp only [statementTokenBounds]
      simp only [← decide_not, ← Bool.decide_or, ← Bool.decide_and]
      rw [decide_eq_decide]
      omega

theorem lineBoundsPred_eq (line a b : Int) (h1 : 1 ≤ line) :
    (!(a = 0 && b = 0) && (a ≤ line && line ≤ b)) = decide (a ≤ line ∧ line ≤ b) := by
  simp only [← decide_not, ← Bool.decide_or, ← Bool.decide_and]
  rw [decide_eq_decide]
  omega

theorem statementIndex_eq_spec (stmts : List Stmt) (e : SyntaxError)
    (h1 : 1 ≤ e.line)
    (h2 : ∀ s ∈ stmts, (∀ t, s.start = some t → 0 ≤ t.tokenIndex) ∧
                        (∀ t, s.stop = some t → 0 ≤ t.tokenIndex)) :
    statementIndexForSyntaxError stmts e =
      match specStatementIndexForSyntaxError stmts e with
      | some i => (i : Int)
      | none => -1 := by
  unfold statementIndexForSyntaxError specStatementIndexForSyntaxError
  cases stmts with
  | nil => simp [firstIdxWhere]
  | cons s0 rest =>
    have htok :
        firstIdxWhere (fun s =>
          !((statementTokenBounds s).1 < 0 ||
              (statementTokenBounds s).2 < (statementTokenBounds s).1) &&
            ((statementTokenBounds s).1 ≤ e.tokenIndex &&
              e.tokenIndex ≤ (statementTokenBounds s).2)) (s0 :: rest) =
        firstIdxWhere (fun s =>
          match s.start, s.stop with
          | some a, some b => decide (a.tokenIndex ≤ e.tokenIndex ∧ e.tokenIndex ≤ b.tokenIndex)
          | _, _ => false) (s0 :: rest) := by
      apply firstIdxWhere_congr
      intro x hx
      exact tokenBoundsPred_eq e x (h2 x hx).1 (h2 x hx).2
    have hline :
        firstIdxWhere (fun s =>
          !((statementLineBounds s).1 = 0 && (statementLineBounds s).2 = 0) &&
            ((statementLineBounds s).1 ≤ e.line && e.line ≤ (statementLineBounds s).2))
          (s0 :: rest) =
        firstIdxWhere (fun s =>
          decide ((statementLineBounds s).1 ≤ e.line ∧ e.line ≤ (statementLineBounds s).2))
          (s0 :: rest) := by
      apply firstIdxWhere_congr
      intro x _
      exact lineBoundsPred_eq e.line _ _ h1
    simp only [List.isEmpty_cons, Bool.false_eq_true, if_false, htok, hline,
      List.headD_cons, List.head?_cons]
    cases hcase : (if 0 ≤ e.tokenIndex then
        firstIdxWhere (fun s =>
          match s.start, s.stop with
          | some a, some b => decide (a.tokenIndex ≤ e.tokenIndex ∧ e.tokenIndex ≤ b.tokenIndex)
          | _, _ => false) (s0 :: rest)
      else none) with
    | some i => rfl
    | none =>
      cases hcase2 : firstIdxWhere (fun s =>
          decide ((statementLineBounds s).1 ≤ e.line ∧ e.line ≤ (statementLineBounds s).2))
          (s0 :: rest) with
      | some i => rfl
      | none =>
        by_cases hlt : e.line < (statementLineBounds s0).1
        · have hpos : 0 < (statementLineBounds s0).1 := by omega
          simp [hlt, hpos]
        · simp [hlt]

theorem attach_single_out_of_range {α : Type} (stmtBounds : List Stmt) (e : SyntaxError)
    (entries : List (StatementParseResult α))
    (h : statementIndexForSyntaxError stmtBounds e < 0) :
    attachSyntaxErrorWarnings stmtBounds [e] entries = entries := by
  unfold attachSyntaxErrorWarnings attachOneSyntaxError
  rw [if_neg]
  · rfl
  · intro hc
    omega

/-- C2: syntax-error-to-statement correlation follows the fixed priority
order stated by the spec (token bounds, then line bounds, then statement 0
for pre-first-statement lines, else dropped), where
`specStatementIndexForSyntaxError` transcribes the spec's cascade; dropped
errors are attached to no batch entry. -/
theorem C2_error_correlation_priority :
    ∀ (stmts : List Stmt) (e : SyntaxError),
      1 ≤ e.line →
      (∀ s ∈ stmts, (∀ t, s.start = some t → 0 ≤ t.tokenIndex) ∧
                    (∀ t, s.stop = some t → 0 ≤ t.tokenIndex)) →
      (statementIndexForSyntaxError stmts e =
        match specStatementIndexForSyntaxError stmts e with
        | some i => (i : Int)
        | none => -1) ∧
      (specStatementIndexForSyntaxError stmts e = none →
        ∀ (α : Type) (entries : List (StatementParseResult α)),
          attachSyntaxErrorWarnings stmts [e] entries = entries) := by
  intro stmts e h1 h2
  have heq := statementIndex_eq_spec stmts e h1 h2
  refine ⟨heq, ?_⟩
  intro hnone α entries
  apply attach_single_out_of_range
  rw [heq, hnone]
  decide

/-- Witness for C2: a token-bound match resolves to the owning statement, and
an error matching no statement is dropped without touching any entry. -/
theorem C2_error_correlation_priority_witness :
    statementIndexForSyntaxError
      [⟨some ⟨0, 1⟩, some ⟨5, 1⟩⟩, ⟨some ⟨6, 2⟩, some ⟨9, 3⟩⟩]
      ⟨2, 4, "m", 7⟩ =
      (match specStatementIndexForSyntaxError
        [⟨some ⟨0, 1⟩, some ⟨5, 1⟩⟩, ⟨some ⟨6, 2⟩, some ⟨9, 3⟩⟩]
        ⟨2, 4, "m", 7⟩ with
      | some i => (i : Int)
      | none => -1) ∧
    attachSyntaxErrorWarnings
      [⟨some ⟨0, 1⟩, some ⟨5, 1⟩⟩, ⟨some ⟨6, 2⟩, some ⟨9, 3⟩⟩]
      [⟨99, 0, "m", -1⟩]
      [⟨1, "SELECT 1", some true, []⟩] =
      [⟨1, "SELECT 1", some true, []⟩] := by
  constructor
  · exact (C2_error_correlation_priority _ _ (by decide) (by decide)).1
  · exact (C2_error_correlation_priority
      [⟨some ⟨0, 1⟩, some ⟨5, 1⟩⟩, ⟨some ⟨6, 2⟩, some ⟨9, 3⟩⟩]
      ⟨99, 0, "m", -1⟩ (by decide) (by decide)).2 (by decide) Bool _

theorem buildStatements_length {α : Type} : ∀ (k : Nat) (l : List (StmtNode α)),
    (buildStatements k l).length = l.length := by
  intro k l
  induction l generalizing k with
  | nil => rfl
  | cons x xs ih => simp [buildStatements, ih]

theorem buildStatements_get? {α : Type} : ∀ (k i : Nat) (l : List (StmtNode α)),
    (buildStatements k l).get? i = (l.get? i).map fun s => initialStatementResult (k + i) s := by
  intro k i l
  induction l generalizing k i with
  | nil => simp [buildStatements]
  | cons x xs ih =>
    cases i with
    | zero => simp [buildStatements]
    | succ j =>
      have harith : k + 1 + j = k + (j + 1) := by omega
      simpa [buildStatements, harith] using ih (k + 1) j

theorem updateAt_length {β : Type} (f : β → β) : ∀ (l : List β) (n : Nat),
    (updateAt l n f).length = l.length := by
  intro l
  induction l with
  | nil => intro n; rfl
  | cons x xs ih => intro n; cases n <;> simp [updateAt, ih]

theorem updateAt_get? {β : Type} (f : β → β) : ∀ (l : List β) (n i : Nat),
    (updateAt l n f).get? i = if i = n then (l.get? i).map f else l.get? i := by
  intro l
  induction l with
  | nil => intro n i; simp [updateAt]
  | cons x xs ih =>
    intro n i
    cases n with
    | zero =>
      cases i with
      | zero => simp [updateAt]
      | succ j => simp [updateAt]
    | succ m =>
      cases i with
      | zero => simp [updateAt]
      | succ j =>
        simp only [updateAt, List.get?_cons_succ, Nat.add_right_cancel_iff]
        exact ih m j

theorem updateAt_countP {β : Type} (p : β → Bool) (f : β → β) (hf : ∀ x, p (f x) = p x) :
    ∀ (l : List β) (n : Nat), (updateAt l n f).countP p = l.countP p := by
  intro l
  induction l with
  | nil => intro n; rfl
  | cons x xs ih =>
    intro n
    cases n with
    | zero => simp [updateAt, List.countP_cons, hf]
    | succ m => simp [updateAt, List.countP_cons, ih m]

theorem attachOne_length {α : Type} (stmtBounds : List Stmt)
    (entries : List (StatementParseResult α)) (e : SyntaxError) :
    (attachOneSyntaxError stmtBounds entries e).length = entries.length := by
  unfold attachOneSyntaxError
  split
  · exact updateAt_length _ _ _
  · rfl

theorem attachOne_get?_core {α : Type} (stmtBounds : List Stmt)
    (entries : List (StatementParseResult α)) (e : SyntaxError) (i : Nat) :
    ((attachOneSyntaxError stmtBounds entries e).get? i).map entryCore =
      (entries.get? i).map entryCore := by
  unfold attachOneSyntaxError
  split
  · rw [updateAt_get?]
    split
    · cases entries.get? i <;> simp [entryCore]
    · rfl
  · rfl

theorem attachOne_countP_query {α : Type} (stmtBounds : List Stmt)
    (entries : List (StatementParseResult α)) (e : SyntaxError) :
    (attachOneSyntaxError stmtBounds entries e).countP (fun st => st.query.isSome) =
      entries.countP (fun st => st.query.isSome) := by
  unfold attachOneSyntaxError
  split
  · apply updateAt_countP
    intro x
    rfl
  · rfl

theorem attach_length {α : Type} (stmtBounds : List Stmt) :
    ∀ (errs : List SyntaxError) (entries : List (StatementParseResult α)),
    (attachSyntaxErrorWarnings stmtBounds errs entries).length = entries.length := by
  intro errs
  induction errs with
  | nil => intro entries; rfl
  | cons e rest ih =>
    intro entries
    simp only [attachSyntaxErrorWarnings]
    rw [ih, attachOne_length]

theorem attach_get?_core {α : Type} (stmtBounds : List Stmt) :
    ∀ (errs : List SyntaxError) (entries : List (StatementParseResult α)) (i : Nat),
    ((attachSyntaxErrorWarnings stmtBounds errs entries).get? i).map entryCore =
      (entries.get? i).map entryCore := by
  intro errs
  induction errs with
  | nil => intro entries i; rfl
  | cons e rest ih =>
    intro entries i
    simp only [attachSyntaxErrorWarnings]
    rw [ih, attachOne_get?_core]

theorem attach_countP_query {α : Type} (stmtBounds : List Stmt) :
    ∀ (errs : List SyntaxError) (entries : List (StatementParseResult α)),
    (attachSyntaxErrorWarnings stmtBounds errs entries).countP (fun st => st.query.isSome) =
      entries.countP (fun st => st.query.isSome) := by
  intro errs
  induction errs with
  | nil => intro entries; rfl
  | cons e rest ih =>
    intro entries
    simp only [attachSyntaxErrorWarnings]
    rw [ih, attachOne_countP_query]

theorem ParseSQLAll_statements_eq {α : Type} (stmts : List (StmtNode α))
    (errs : List SyntaxError) :
    (ParseSQLAll stmts errs).statements =
      attachSyntaxErrorWarnings (stmts.map StmtNode.stmt) errs (buildStatements 0 stmts) := rfl

theorem ParseSQLAll_length {α : Type} (stmts : List (StmtNode α)) (errs : List SyntaxError) :
    (ParseSQLAll stmts errs).statements.length = stmts.length := by
  rw [ParseSQLAll_statements_eq, attach_length, buildStatements_length]

theorem ParseSQLAll_entry_core {α : Type} (stmts : List (StmtNode α)) (errs : List SyntaxError)
    (i : Nat) (h : i < stmts.length) (h2 : i < (ParseSQLAll stmts errs).statements.length) :
    entryCore ((ParseSQLAll stmts errs).statements.get ⟨i, h2⟩) =
      entryCore (initialStatementResult i (stmts.get ⟨i, h⟩)) := by
  have hcore := attach_get?_core (stmts.map StmtNode.stmt) errs (buildStatements 0 stmts) i
  rw [buildStatements_get?] at hcore
  rw [← ParseSQLAll_statements_eq] at hcore
  rw [List.get?_eq_get h2, List.get?_eq_get h] at hcore
  simp only [Option.map_some', Option.some.injEq, Nat.zero_add] at hcore
  exact hcore

theorem ParseSQLAll_hasFailures_iff {α : Type} (stmts : List (StmtNode α))
    (errs : List SyntaxError) :
    (ParseSQLAll stmts errs).hasFailures = true ↔
      ∃ st ∈ (ParseSQLAll stmts errs).statements, st.query = none ∨ st.warnings ≠ [] := by
  have hcount :
      ((ParseSQLAll stmts errs).statements).countP (fun st => st.query.isSome) =
        (buildStatements 0 stmts).countP (fun st => st.query.isSome) := by
    rw [ParseSQLAll_statements_eq, attach_countP_query]
  have hlen : ((ParseSQLAll stmts errs).statements).length = (buildStatements 0 stmts).length := by
    rw [ParseSQLAll_statements_eq, attach_length]
  have hflag : (ParseSQLAll stmts errs).hasFailures =
      (if (buildStatements 0 stmts).countP (fun st => st.query.isSome) ≠
          ((ParseSQLAll stmts errs).statements).length then true
       else (ParseSQLAll stmts errs).statements.any fun st => !st.warnings.isEmpty) := rfl
  rw [hflag]
  by_cases hne : (buildStatements 0 stmts).countP (fun st => st.query.isSome) ≠
      ((ParseSQLAll stmts errs).statements).length
  · rw [if_pos hne]
    simp only [true_iff]
    have hne2 : ((ParseSQLAll stmts errs).statements).countP (fun st => st.query.isSome) ≠
        ((ParseSQLAll stmts errs).statements).length := by
      rw [hcount]; exact hne
    have hnotall : ¬ ∀ st ∈ (ParseSQLAll stmts errs).statements, st.query.isSome = true := by
      intro hall
      exact hne2 (List.countP_eq_length.mpr hall)
    push_neg at hnotall
    obtain ⟨st, hmem, hq⟩ := hnotall
    refine ⟨st, hmem, Or.inl ?_⟩
    simpa [Option.not_isSome_iff_eq_none] using hq
  · rw [if_neg hne]
    push_neg at hne
    have hall : ∀ st ∈ (ParseSQLAll stmts errs).statements, st.query.isSome = true := by
      apply List.countP_eq_length.mp
      rw [hcount]; exact hne
    rw [List.any_eq_true]
    constructor
    · rintro ⟨st, hmem, hw⟩
      refine ⟨st, hmem, Or.inr ?_⟩
      simpa using hw
    · rintro ⟨st, hmem, hq | hw⟩
      · have := hall st hmem
        rw [hq] at this
        simp at this
      · exact ⟨st, hmem, by simpa using hw⟩

theorem map_stmt_set_ir {α : Type} (q : Option α) :
    ∀ (l : List (StmtNode α)) (i : Nat) (h : i < l.length),
      (l.set i { l.get ⟨i, h⟩ with ir := q }).map StmtNode.stmt = l.map StmtNode.stmt := by
  intro l
  induction l with
  | nil => intro i h; simp at h
  | cons x xs ih =>
    intro i h
    cases i with
    | zero => simp [List.set]
    | succ j =>
      have hj : j < xs.length := by simpa using h
      have hget : (x :: xs).get ⟨j + 1, h⟩ = xs.get ⟨j, hj⟩ := rfl
      rw [hget]
      show (x :: xs.set j { xs.get ⟨j, hj⟩ with ir := q }).map StmtNode.stmt =
        (x :: xs).map StmtNode.stmt
      simp only [List.map_cons]
      rw [ih j hj]

theorem buildStatements_set_ir {α : Type} (q : Option α) :
    ∀ (l : List (StmtNode α)) (k i : Nat) (h : i < l.length),
      (l.get ⟨i, h⟩).text = "" →
      buildStatements k (l.set i { l.get ⟨i, h⟩ with ir := q }) = buildStatements k l := by
  intro l
  induction l with
  | nil => intro k i h; simp at h
  | cons x xs ih =>
    intro k i h htext
    cases i with
    | zero =>
      simp only [List.set, buildStatements]
      congr 1
      have htext0 : x.text = "" := htext
      simp [initialStatementResult, htext0]
    | succ j =>
      simp only [List.set, buildStatements]
      congr 1
      exact ih (k + 1) j (by simpa using h) (by simpa using htext)

/-- C3: batch acquisition is fault-isolated and correctly flagged: the batch
always contains one entry per statement node, every entry's 1-based index
equals its position, an extraction failure only leads to an absent Query for
that entry, and the failure flag is true exactly when some entry has an
absent Query or a non-empty warning list. -/
theorem C3_batch_fault_isolation :
    ∀ (α : Type) (stmts : List (StmtNode α)) (errs : List SyntaxError),
      ((ParseSQLAll stmts errs).statements.length = stmts.length) ∧
      (∀ (i : Nat) (h2 : i < (ParseSQLAll stmts errs).statements.length),
        ((ParseSQLAll stmts errs).statements.get ⟨i, h2⟩).index = i + 1) ∧
      (∀ (i : Nat) (h : i < stmts.length)
        (h2 : i < (ParseSQLAll stmts errs).statements.length),
        (stmts.get ⟨i, h⟩).ir = none →
        ((ParseSQLAll stmts errs).statements.get ⟨i, h2⟩).query = none) ∧
      ((ParseSQLAll stmts errs).hasFailures = true ↔
        ∃ st ∈ (ParseSQLAll stmts errs).statements, st.query = none ∨ st.warnings ≠ []) := by
  intro α stmts errs
  refine ⟨ParseSQLAll_length stmts errs, ?_, ?_, ParseSQLAll_hasFailures_iff stmts errs⟩
  · intro i h2
    have h : i < stmts.length := by
      rw [← ParseSQLAll_length stmts errs]; exact h2
    have hcore := ParseSQLAll_entry_core stmts errs i h h2
    have := congrArg Prod.fst hcore
    simpa [entryCore, initialStatementResult] using this
  · intro i h h2 hir
    have hcore := ParseSQLAll_entry_core stmts errs i h h2
    have := congrArg (fun x => x.2.2) hcore
    simp only [entryCore, initialStatementResult] at this
    rw [this, hir]
    split <;> rfl

/-- Witness for C3 at a concrete two-statement batch (one failing statement,
one syntax error). -/
theorem C3_batch_fault_isolation_witness :
    ((ParseSQLAll (α := Bool)
      [⟨⟨some ⟨0, 1⟩, some ⟨5, 1⟩⟩, "SELECT 1", some true⟩,
       ⟨⟨some ⟨6, 2⟩, some ⟨9, 2⟩⟩, "SELECT FROM", none⟩]
      [⟨2, 7, "boom", 7⟩]).statements.length = 2) ∧
    ((ParseSQLAll (α := Bool)
      [⟨⟨some ⟨0, 1⟩, some ⟨5, 1⟩⟩, "SELECT 1", some true⟩,
       ⟨⟨some ⟨6, 2⟩, some ⟨9, 2⟩⟩, "SELECT FROM", none⟩]
      [⟨2, 7, "boom", 7⟩]).statements.get
        ⟨1, by decide⟩).index = 2 ∧
    ((ParseSQLAll (α := Bool)
      [⟨⟨some ⟨0, 1⟩, some ⟨5, 1⟩⟩, "SELECT 1", some true⟩,
       ⟨⟨some ⟨6, 2⟩, some ⟨9, 2⟩⟩, "SELECT FROM", none⟩]
      [⟨2, 7, "boom", 7⟩]).statements.get
        ⟨1, by decide⟩).query = none ∧
    (ParseSQLAll (α := Bool)
      [⟨⟨some ⟨0, 1⟩, some ⟨5, 1⟩⟩, "SELECT 1", some true⟩,
       ⟨⟨some ⟨6, 2⟩, some ⟨9, 2⟩⟩, "SELECT FROM", none⟩]
      [⟨2, 7, "boom", 7⟩]).hasFailures = true := by
  have h := C3_batch_fault_isolation Bool
    [⟨⟨some ⟨0, 1⟩, some ⟨5, 1⟩⟩, "SELECT 1", some true⟩,
     ⟨⟨some ⟨6, 2⟩, some ⟨9, 2⟩⟩, "SELECT FROM", none⟩]
    [⟨2, 7, "boom", 7⟩]
  refine ⟨h.1, h.2.1 1 (by decide), h.2.2.1 1 (by decide) (by decide) rfl, ?_⟩
  exact h.2.2.2.mpr ⟨_, List.get_mem _ 1 (by decide), Or.inl rfl⟩

/-- C10: a recovered statement node whose rendered source text is empty yields
an entry with empty RawSQL and an absent Query, IR extraction is never
attempted for it (the batch result is invariant under the node's IR oracle),
and the batch failure flag is forced to true. -/
theorem C10_empty_statement_text :
    ∀ (α : Type) (stmts : List (StmtNode α)) (errs : List SyntaxError) (i : Nat)
      (h : i < stmts.length),
      (stmts.get ⟨i, h⟩).text = "" →
      (∀ h2 : i < (ParseSQLAll stmts errs).statements.length,
        ((ParseSQLAll stmts errs).statements.get ⟨i, h2⟩).rawSQL = "" ∧
        ((ParseSQLAll stmts errs).statements.get ⟨i, h2⟩).query = none) ∧
      (∀ q : Option α,
        ParseSQLAll (stmts.set i { stmts.get ⟨i, h⟩ with ir := q }) errs =
          ParseSQLAll stmts errs) ∧
      (ParseSQLAll stmts errs).hasFailures = true := by
  intro α stmts errs i h htext
  have hentry : ∀ h2 : i < (ParseSQLAll stmts errs).statements.length,
      ((ParseSQLAll stmts errs).statements.get ⟨i, h2⟩).rawSQL = "" ∧
      ((ParseSQLAll stmts errs).statements.get ⟨i, h2⟩).query = none := by
    intro h2
    have hcore := ParseSQLAll_entry_core stmts errs i h h2
    have hraw := congrArg (fun x => x.2.1) hcore
    have hq := congrArg (fun x => x.2.2) hcore
    simp only [entryCore, initialStatementResult, htext] at hraw hq
    exact ⟨hraw, by simpa using hq⟩
  refine ⟨hentry, ?_, ?_⟩
  · intro q
    unfold ParseSQLAll
    rw [buildStatements_set_ir q stmts 0 i h htext, map_stmt_set_ir q stmts i h]
  · have h2 : i < (ParseSQLAll stmts errs).statements.length := by
      rw [ParseSQLAll_length]; exact h
    exact (ParseSQLAll_hasFailures_iff stmts errs).mpr
      ⟨_, List.get_mem _ i h2, Or.inl (hentry h2).2⟩

/-- Witness for C10 at a concrete batch with an empty-text recovered node. -/
theorem C10_empty_statement_text_witness :
    ((ParseSQLAll (α := Bool)
      [⟨⟨some ⟨0, 1⟩, some ⟨5, 1⟩⟩, "SELECT 1", some true⟩,
       ⟨⟨none, none⟩, "", none⟩] []).statements.get ⟨1, by decide⟩).rawSQL = "" ∧
    ((ParseSQLAll (α := Bool)
      [⟨⟨some ⟨0, 1⟩, some ⟨5, 1⟩⟩, "SELECT 1", some true⟩,
       ⟨⟨none, none⟩, "", none⟩] []).statements.get ⟨1, by decide⟩).query = none ∧
    (ParseSQLAll (α := Bool)
      ([⟨⟨some ⟨0, 1⟩, some ⟨5, 1⟩⟩, "SELECT 1", some true⟩,
        ⟨⟨none, none⟩, "", none⟩].set 1
          { ([⟨⟨some ⟨0, 1⟩, some ⟨5, 1⟩⟩, "SELECT 1", some true⟩,
             ⟨⟨none, none⟩, "", none⟩] :
              List (StmtNode Bool)).get ⟨1, by decide⟩ with ir := some false }) []
      = ParseSQLAll (α := Bool)
      [⟨⟨some ⟨0, 1⟩, some ⟨5, 1⟩⟩, "SELECT 1", some true⟩,
       ⟨⟨none, none⟩, "", none⟩] []) ∧
    (ParseSQLAll (α := Bool)
      [⟨⟨some ⟨0, 1⟩, some ⟨5, 1⟩⟩, "SELECT 1", some true⟩,
       ⟨⟨none, none⟩, "", none⟩] []).hasFailures = true := by
  have h := C10_empty_statement_text Bool
    [⟨⟨some ⟨0, 1⟩, some ⟨5, 1⟩⟩, "SELECT 1", some true⟩,
     ⟨⟨none, none⟩, "", none⟩] [] 1 (by decide) rfl
  exact ⟨(h.1 (by decide)).1, (h.1 (by decide)).2, h.2.1 (some false), h.2.2⟩

theorem firstIdxWhere_append_of_first {β : Type} (p : β → Bool) :
    ∀ (xs : List β) (y : β) (ys : List β), (∀ x ∈ xs, p x = false) → p y = true →
    firstIdxWhere p (xs ++ y :: ys) = some xs.length := by
  intro xs
  induction xs with
  | nil => intro y ys _ hy; simp [firstIdxWhere, hy]
  | cons a as ih =>
    intro y ys hall hy
    have ha : p a = false := hall a (List.mem_cons_self _ _)
    simp [firstIdxWhere, ha, ih y ys (fun x hx => hall x (List.mem_cons_of_mem _ hx)) hy]

theorem goTrimSpace_eq_self {s : List Char}
    (h1 : ∀ c, s.head? = some c → isGoSpace c = false)
    (h2 : ∀ c, s.getLast? = some c → isGoSpace c = false) :
    goTrimSpace s = s := by
  unfold goTrimSpace
  have hd : s.dropWhile isGoSpace = s := by
    cases s with
    | nil => rfl
    | cons a as =>
      rw [List.dropWhile_cons_of_neg]
      simp [h1 a rfl]
  rw [hd]
  have hr : s.reverse.dropWhile isGoSpace = s.reverse := by
    cases hrev : s.reverse with
    | nil => rfl
    | cons a as =>
      rw [List.dropWhile_cons_of_neg]
      have hlast : s.getLast? = some a := by
        rw [List.getLast?_eq_head?_reverse, hrev]
        rfl
      simp [h2 a hlast]
  rw [hr, List.reverse_reverse]

theorem dollarDelim_count {tag : List Char} (h : '$' ∉ tag) :
    (dollarDelim tag).count '$' = 2 := by
  simp [dollarDelim, List.count_append, List.count_cons, List.count_eq_zero.mpr h]

theorem dollarDelim_ne_nil (tag : List Char) : dollarDelim tag ≠ [] := by
  simp [dollarDelim]

theorem dollarDelim_length (tag : List Char) : (dollarDelim tag).length = tag.length + 2 := by
  simp [dollarDelim]

theorem dollarDelim_inj {tag other : List Char} (h : dollarDelim tag = dollarDelim other) :
    tag = other := by
  have h2 : tag ++ ['$'] = other ++ ['$'] := by
    simpa [dollarDelim] using h
  have := congrArg List.dropLast h2
  simpa [List.dropLast_concat] using this

theorem dollarDelim_not_suffix {tag other middle : List Char} (htag : '$' ∉ tag)
    (hother : '$' ∉ other) (hne : tag ≠ other) :
    ¬ dollarDelim tag <:+ dollarDelim tag ++ middle ++ dollarDelim other := by
  rintro ⟨u, hu⟩
  have hct := dollarDelim_count htag
  have hco := dollarDelim_count hother
  rcases List.append_eq_append_iff.mp hu with ⟨w, _, hw⟩ | ⟨w, _, hw⟩
  · -- dollarDelim tag = w ++ dollarDelim other
    have hcw : w.count '$' = 0 := by
      have := congrArg (List.count '$') hw
      rw [List.count_append, hct, hco] at this
      omega
    have hwnot : '$' ∉ w := List.count_eq_zero.mp hcw
    cases w with
    | nil =>
      simp only [List.nil_append] at hw
      exact hne (dollarDelim_inj hw)
    | cons x xs =>
      have hx : x = '$' := by
        have : dollarDelim tag = x :: (xs ++ dollarDelim other) := by simpa using hw
        have hh := congrArg List.head? this
        simp only [dollarDelim, List.head?_cons, Option.some.injEq] at hh
        exact hh.symm
      exact hwnot (hx ▸ List.mem_cons_self x xs)
  · -- dollarDelim other = w ++ dollarDelim tag
    have hcw : w.count '$' = 0 := by
      have := congrArg (List.count '$') hw
      rw [List.count_append, hct, hco] at this
      omega
    have hwnot : '$' ∉ w := List.count_eq_zero.mp hcw
    cases w with
    | nil =>
      simp only [List.nil_append] at hw
      exact hne (dollarDelim_inj hw.symm)
    | cons x xs =>
      have hx : x = '$' := by
        have : dollarDelim other = x :: (xs ++ dollarDelim tag) := by simpa using hw
        have hh := congrArg List.head? this
        simp only [dollarDelim, List.head?_cons, Option.some.injEq] at hh
        exact hh.symm
      exact hwnot (hx ▸ List.mem_cons_self x xs)

theorem dollarDelim_firstIdx {tag : List Char} (htag : '$' ∉ tag) (suffix0 : List Char) :
    firstIdxWhere (fun x => x = '$') (tag ++ '$' :: suffix0) = some tag.length := by
  apply firstIdxWhere_append_of_first
  · intro x hx
    simp only [decide_eq_true_eq] at *
    by_contra hcontra
    simp only [Bool.not_eq_false, decide_eq_true_eq] at hcontra
    exact htag (hcontra ▸ hx)
  · simp

theorem decodeDollarQuoted_concat {tag inner : List Char} (htag : '$' ∉ tag) :
    decodeDollarQuotedString (dollarDelim tag ++ inner ++ dollarDelim tag) = some inner := by
  have hcons : dollarDelim tag ++ inner ++ dollarDelim tag =
      '$' :: (tag ++ '$' :: (inner ++ dollarDelim tag)) := by
    simp [dollarDelim]
  have hraw : ('$' : Char) :: (tag ++ '$' :: (inner ++ dollarDelim tag)) =
      dollarDelim tag ++ (inner ++ dollarDelim tag) := by
    simp [dollarDelim]
  have htake : (('$' : Char) :: (tag ++ '$' :: (inner ++ dollarDelim tag))).take
      (tag.length + 2) = dollarDelim tag := by
    rw [hraw]
    exact List.take_left' (dollarDelim_length tag)
  have hlen : (('$' : Char) :: (tag ++ '$' :: (inner ++ dollarDelim tag))).length =
      2 * (tag.length + 2) + inner.length := by
    simp [dollarDelim]
    omega
  have hsuf : (dollarDelim tag).isSuffixOf
      ('$' :: (tag ++ '$' :: (inner ++ dollarDelim tag))) = true := by
    rw [List.isSuffixOf_iff_suffix, hraw, ← List.append_assoc]
    exact List.suffix_append _ _
  have hdrop : (('$' : Char) :: (tag ++ '$' :: (inner ++ dollarDelim tag))).drop
      (tag.length + 2) = inner ++ dollarDelim tag := by
    rw [hraw]
    exact List.drop_left' (dollarDelim_length tag)
  rw [hcons]
  simp only [decodeDollarQuotedString, dollarDelim_firstIdx htag]
  rw [if_neg (by simp)]
  simp only [htake, dollarDelim_length, hlen, hsuf, hdrop]
  rw [if_neg (by omega)]
  simp only [Bool.not_true, Bool.false_eq_true, if_false, Option.some.injEq]
  have harith : 2 * (tag.length + 2) + inner.length - 2 * (tag.length + 2) = inner.length := by
    omega
  rw [harith]
  exact List.take_left' rfl

theorem upperHasPrefixTwo_false_of_head {s : List Char} {c a b : Char}
    (hs : s.head? = some c) (h : toUpperASCII c ≠ a) : upperHasPrefixTwo s a b = false := by
  cases s with
  | nil => rfl
  | cons c0 rest =>
    cases rest with
    | nil => rfl
    | cons c1 rest2 =>
      have hc : c0 = c := by simpa using hs
      subst hc
      simp [upperHasPrefixTwo, h]

theorem upperHasPrefixThree_false_of_head {s : List Char} {c a b d : Char}
    (hs : s.head? = some c) (h : toUpperASCII c ≠ a) :
    upperHasPrefixThree s a b d = false := by
  cases s with
  | nil => rfl
  | cons c0 rest =>
    cases rest with
    | nil => rfl
    | cons c1 rest2 =>
      cases rest2 with
      | nil => rfl
      | cons c2 rest3 =>
        have hc : c0 = c := by simpa using hs
        subst hc
        simp [upperHasPrefixThree, h]

theorem decodeSingleQuoted_none_of_head {s : List Char} {c : Char}
    (hs : s.head? = some c) (h : c ≠ '\'') : decodeSingleQuoted s = none := by
  unfold decodeSingleQuoted
  rw [if_pos]
  right
  left
  rw [hs]
  simp [h]

theorem decodeCommentStringLiteral_dollar {raw : List Char} (hhead : raw.head? = some '$')
    (hlast : raw.getLast? = some '$') :
    decodeCommentStringLiteral raw =
      match decodeDollarQuotedString raw with
      | some decoded => decoded
      | none => raw := by
  have htrim : goTrimSpace raw = raw :=
    goTrimSpace_eq_self (fun c hc => by rw [hhead] at hc; cases hc; decide)
      (fun c hc => by rw [hlast] at hc; cases hc; decide)
  have hne : raw ≠ [] := by
    intro h0
    rw [h0] at hhead
    simp at hhead
  simp only [decodeCommentStringLiteral, htrim]
  rw [if_neg (by simpa [List.isEmpty_iff] using hne)]
  rw [if_pos hhead]
  cases hdec : decodeDollarQuotedString raw with
  | some decoded => rfl
  | none =>
    simp only
    rw [upperHasPrefixTwo_false_of_head hhead (by decide),
        upperHasPrefixTwo_false_of_head hhead (by decide),
        upperHasPrefixThree_false_of_head hhead (by decide)]
    simp only [Bool.or_false, Bool.false_eq_true, if_false]
    rw [decodeSingleQuoted_none_of_head hhead (by decide)]

theorem decodeDollarQuoted_mismatch {tag other middle : List Char} (htag : '$' ∉ tag)
    (hother : '$' ∉ other) (hne : tag ≠ other) :
    decodeDollarQuotedString (dollarDelim tag ++ middle ++ dollarDelim other) = none := by
  have hcons : dollarDelim tag ++ middle ++ dollarDelim other =
      '$' :: (tag ++ '$' :: (middle ++ dollarDelim other)) := by
    simp [dollarDelim]
  have hraw : ('$' : Char) :: (tag ++ '$' :: (middle ++ dollarDelim other)) =
      dollarDelim tag ++ (middle ++ dollarDelim other) := by
    simp [dollarDelim]
  have htake : (('$' : Char) :: (tag ++ '$' :: (middle ++ dollarDelim other))).take
      (tag.length + 2) = dollarDelim tag := by
    rw [hraw]
    exact List.take_left' (dollarDelim_length tag)
  rw [hcons]
  simp only [decodeDollarQuotedString, dollarDelim_firstIdx htag]
  rw [if_neg (by simp)]
  simp only [htake, dollarDelim_length]
  by_cases hlen : (('$' : Char) :: (tag ++ '$' :: (middle ++ dollarDelim other))).length <
      (tag.length + 2) * 2
  · rw [if_pos hlen]
  · rw [if_neg hlen]
    have hsu : (dollarDelim tag).isSuffixOf
        ('$' :: (tag ++ '$' :: (middle ++ dollarDelim other))) = false := by
      rw [Bool.eq_false_iff]
      intro hcontra
      rw [List.isSuffixOf_iff_suffix, hraw, ← List.append_assoc] at hcontra
      exact dollarDelim_not_suffix htag hother hne hcontra
    rw [hsu]
    simp

/-- C5: dollar-quoted string decoding round-trips: for every `$`-free tag and
body not containing the delimiter, decoding `$tag$ body $tag$` yields the body
unchanged (and the full literal decoder returns it); a literal whose closing
delimiter carries a different tag is not recognized as dollar-quoted, so the
decoder falls through and ultimately returns the trimmed original text. -/
theorem C5_dollar_quote_roundtrip :
    (∀ (tag body : List Char), '$' ∉ tag →
      ¬ dollarDelim tag <:+: body →
      decodeDollarQuotedString (dollarDelim tag ++ body ++ dollarDelim tag) = some body ∧
      decodeCommentStringLiteral (dollarDelim tag ++ body ++ dollarDelim tag) = body) ∧
    (∀ (tag other middle : List Char), '$' ∉ tag → '$' ∉ other → tag ≠ other →
      decodeDollarQuotedString (dollarDelim tag ++ middle ++ dollarDelim other) = none ∧
      decodeCommentStringLiteral (dollarDelim tag ++ middle ++ dollarDelim other) =
        dollarDelim tag ++ middle ++ dollarDelim other) := by
  constructor
  · intro tag body htag _hinf
    have hhead : (dollarDelim tag ++ body ++ dollarDelim tag).head? = some '$' := by
      simp [dollarDelim]
    have hlast : (dollarDelim tag ++ body ++ dollarDelim tag).getLast? = some '$' := by
      rw [show dollarDelim tag ++ body ++ dollarDelim tag =
          (dollarDelim tag ++ body ++ '$' :: tag) ++ ['$'] by simp [dollarDelim]]
      exact List.getLast?_concat _
    refine ⟨decodeDollarQuoted_concat htag, ?_⟩
    rw [decodeCommentStringLiteral_dollar hhead hlast, decodeDollarQuoted_concat htag]
  · intro tag other middle htag hother hne
    have hhead : (dollarDelim tag ++ middle ++ dollarDelim other).head? = some '$' := by
      simp [dollarDelim]
    have hlast : (dollarDelim tag ++ middle ++ dollarDelim other).getLast? = some '$' := by
      rw [show dollarDelim tag ++ middle ++ dollarDelim other =
          (dollarDelim tag ++ middle ++ '$' :: other) ++ ['$'] by simp [dollarDelim]]
      exact List.getLast?_concat _
    refine ⟨decodeDollarQuoted_mismatch htag hother hne, ?_⟩
    rw [decodeCommentStringLiteral_dollar hhead hlast,
      decodeDollarQuoted_mismatch htag hother hne]

/-- Witness for C5: the round trip on `$tag$Stores data$tag$` and the
fall-through on `$tag$abc$other$`. -/
theorem C5_dollar_quote_roundtrip_witness :
    decodeDollarQuotedString (dollarDelim "tag".toList ++ "Stores data".toList ++
      dollarDelim "tag".toList) = some "Stores data".toList ∧
    decodeCommentStringLiteral (dollarDelim "tag".toList ++ "Stores data".toList ++
      dollarDelim "tag".toList) = "Stores data".toList ∧
    decodeDollarQuotedString (dollarDelim "tag".toList ++ "abc".toList ++
      dollarDelim "other".toList) = none ∧
    decodeCommentStringLiteral (dollarDelim "tag".toList ++ "abc".toList ++
      dollarDelim "other".toList) =
      dollarDelim "tag".toList ++ "abc".toList ++ dollarDelim "other".toList := by
  have h1 := C5_dollar_quote_roundtrip.1 "tag".toList "Stores data".toList
    (by decide) (by decide)
  have h2 := C5_dollar_quote_roundtrip.2 "tag".toList "other".toList "abc".toList
    (by decide) (by decide) (by decide)
  exact ⟨h1.1, h1.2, h2.1, h2.2⟩

/-- C8: the string-literal decoder is total with a defined fallback: empty or
NULL text decodes to the empty string, and a literal recognized by none of
the dollar-quoted, E'/N', U&' or plain single-quoted forms is returned as its
whitespace-trimmed original text. -/
theorem C8_decoder_total_fallback :
    (∀ raw : List Char,
      raw = [] ∨ equalFoldASCIIWord raw "NULL".toList = true →
      decodeCommentText raw = []) ∧
    (∀ raw : List Char,
      raw ≠ [] →
      equalFoldASCIIWord raw "NULL".toList = false →
      ((goTrimSpace raw).head? = some '$' →
        decodeDollarQuotedString (goTrimSpace raw) = none) →
      upperHasPrefixTwo (goTrimSpace raw) 'E' '\'' = false →
      upperHasPrefixTwo (goTrimSpace raw) 'N' '\'' = false →
      upperHasPrefixThree (goTrimSpace raw) 'U' '&' '\'' = false →
      decodeSingleQuoted (goTrimSpace raw) = none →
      decodeCommentText raw = goTrimSpace raw) := by
  constructor
  · intro raw h
    unfold decodeCommentText
    rcases h with rfl | hf
    · rfl
    · rw [hf]
      simp
  · intro raw hne hnull hdollar hE hN hU hsq
    have hnull2 : equalFoldASCIIWord raw ['N', 'U', 'L', 'L'] = false := hnull
    unfold decodeCommentText
    rw [if_neg (by simp [List.isEmpty_iff, hne, hnull2])]
    by_cases htr : (goTrimSpace raw).isEmpty
    · simp only [decodeCommentStringLiteral, htr, if_true]
      rw [List.isEmpty_iff] at htr
      rw [htr]
    · simp only [decodeCommentStringLiteral]
      rw [if_neg (by simp [htr])]
      have hd : (if (goTrimSpace raw).head? = some '$' then
          decodeDollarQuotedString (goTrimSpace raw) else none) = none := by
        split
        · exact hdollar (by assumption)
        · rfl
      rw [hd]
      simp only [hE, hN, hU]
      simp only [Bool.or_self, Bool.false_eq_true, if_false]
      rw [hsq]

/-- Witness for C8: NULL decodes to the empty string and an unquoted word
falls back to its trimmed original text. -/
theorem C8_decoder_total_fallback_witness :
    decodeCommentText "NULL".toList = [] ∧
    decodeCommentText " garbage ".toList = goTrimSpace " garbage ".toList := by
  constructor
  · exact C8_decoder_total_fallback.1 "NULL".toList (Or.inr (by decide))
  · exact C8_decoder_total_fallback.2 " garbage ".toList (by decide) (by decide)
      (by decide) (by decide) (by decide) (by decide) (by decide)

theorem splitStep_depth_nonneg (runes : List Char) (i : Nat)
    (s : createTableElementSplitter) (h : 0 ≤ s.depth) :
    0 ≤ (splitStep runes i s).2.depth := by
  unfold splitStep
  cases hget : runes.get? i with
  | none => exact h
  | some r =>
    simp only
    by_cases h1 : s.inBlockComment = true
    · rw [if_pos h1]
      by_cases h1a : r = '*' ∧ runes.get? (i + 1) = some '/'
      · rw [if_pos h1a]; exact h
      · rw [if_neg h1a]; exact h
    · rw [if_neg h1]
      by_cases h2 : s.inDollar = true
      · rw [if_pos h2]
        by_cases h2a : r = '$' ∧ hasDollarTerminator runes i s.dollarTag = true
        · rw [if_pos h2a]; exact h
        · rw [if_neg h2a]; exact h
      · rw [if_neg h2]
        by_cases h3 : s.inSingle = true
        · rw [if_pos h3]
          by_cases h3a : r = '\''
          · rw [if_pos h3a]
            by_cases h3b : runes.get? (i + 1) = some '\''
            · rw [if_pos h3b]; exact h
            · rw [if_neg h3b]; exact h
          · rw [if_neg h3a]; exact h
        · rw [if_neg h3]
          by_cases h4 : s.inDouble = true
          · rw [if_pos h4]
            by_cases h4a : r = '"'
            · rw [if_pos h4a]
              by_cases h4b : runes.get? (i + 1) = some '"'
              · rw [if_pos h4b]; exact h
              · rw [if_neg h4b]; exact h
            · rw [if_neg h4a]; exact h
          · rw [if_neg h4]
            by_cases h5 : r = '-' ∧ runes.get? (i + 1) = some '-'
            · rw [if_pos h5]
              by_cases h5a : (!s.hasContent) = true
              · rw [if_pos h5a]
                by_cases h5b : (goTrimSpace (List.take
                    ((runes.drop (i + 2)).takeWhile
                      (fun c => !(c = '\n' || c = '\r'))).length
                    (runes.drop (i + 2)))).isEmpty = true
                · rw [if_pos h5b]; exact h
                · rw [if_neg h5b]; exact h
              · rw [if_neg h5a]; exact h
            · rw [if_neg h5]
              by_cases h6 : r = '/' ∧ runes.get? (i + 1) = some '*'
              · rw [if_pos h6]; exact h
              · rw [if_neg h6]
                by_cases h7 : r = '\''
                · rw [if_pos h7]; exact h
                · rw [if_neg h7]
                  by_cases h8 : r = '"'
                  · rw [if_pos h8]; exact h
                  · rw [if_neg h8]
                    cases hpd : (if r = '$' then parseDollarTag runes i else none) with
                    | some tag => exact h
                    | none =>
                      simp only
                      by_cases h9 : r = ',' ∧ s.depth = 0
                      · rw [if_pos h9]
                        unfold flushCurrent
                        by_cases h9a : (goTrimSpace s.current).isEmpty = true
                        · rw [if_pos h9a]; exact h
                        · rw [if_neg h9a]; exact h
                      · rw [if_neg h9]
                        by_cases h10 : r = '('
                        · rw [if_pos h10]
                          show (0 : Int) ≤ s.depth + 1
                          omega
                        · rw [if_neg h10]
                          by_cases h11 : r = ')' ∧ 0 < s.depth
                          · rw [if_pos h11]
                            show (0 : Int) ≤ s.depth - 1
                            omega
                          · rw [if_neg h11]; exact h

theorem splitLoop_depth_nonneg (runes : List Char) :
    ∀ (fuel i : Nat) (s : createTableElementSplitter),
    0 ≤ s.depth → 0 ≤ (splitLoop runes fuel i s).depth := by
  intro fuel
  induction fuel with
  | zero => intro i s h; exact h
  | succ n ih =>
    intro i s h
    unfold splitLoop
    split
    · exact ih _ _ (splitStep_depth_nonneg runes i s h)
    · exact h

/-- C4: line-comment buffering in the CREATE TABLE element splitter: a line
comment is captured into the pending buffer only while the accumulator has no
non-whitespace content (with content present the scanner state is wholly
unchanged); the next flush emits pending comments with its element; and the
example body yields exactly two elements with the claimed comment
attribution. -/
theorem C4_line_comment_buffering :
    (∀ (runes : List Char) (i : Nat) (s : createTableElementSplitter),
      s.inBlockComment = false → s.inDollar = false → s.inSingle = false →
      s.inDouble = false →
      runes.get? i = some '-' → runes.get? (i + 1) = some '-' →
      (s.hasContent = true → (splitStep runes i s).2 = s) ∧
      (s.hasContent = false →
        (splitStep runes i s).2.elements = s.elements ∧
        (splitStep runes i s).2.current = s.current ∧
        (splitStep runes i s).2.pendingComments =
          (if (goTrimSpace ((runes.drop (i + 2)).take
              ((runes.drop (i + 2)).takeWhile
                (fun c => !(c = '\n' || c = '\r'))).length)).isEmpty = true
           then s.pendingComments
           else s.pendingComments ++ [goTrimSpace ((runes.drop (i + 2)).take
              ((runes.drop (i + 2)).takeWhile
                (fun c => !(c = '\n' || c = '\r'))).length)]))) ∧
    (∀ s : createTableElementSplitter, (goTrimSpace s.current).isEmpty = false →
      (flushCurrent s).elements = s.elements ++ [⟨goTrimSpace s.current, s.pendingComments⟩] ∧
      (flushCurrent s).pendingComments = []) ∧
    splitCreateTableElementsWithComments
      "id integer, -- not attached\n-- attached to email\nemail text".toList =
      [⟨"id integer".toList, []⟩,
       ⟨"email text".toList, ["not attached".toList, "attached to email".toList]⟩] := by
  refine ⟨?_, ?_, by decide⟩
  · intro runes i s hbc hdl hsg hdb hget hget2
    constructor
    · intro hc
      unfold splitStep
      rw [hget]
      simp only [hbc, hdl, hsg, hdb, hget2, hc, Bool.false_eq_true, if_false, and_self,
        and_true, if_true, Bool.not_true]
    · intro hc
      unfold splitStep
      rw [hget]
      simp only [hbc, hdl, hsg, hdb, hget2, hc, Bool.false_eq_true, if_false, and_self,
        and_true, if_true, Bool.not_false]
      split <;> simp
  · intro s h
    unfold flushCurrent
    rw [if_neg (by simp [h])]
    exact ⟨rfl, rfl⟩

/-- Witness for C4 at concrete inputs: a line comment is discarded when
content was seen, buffered otherwise, and a flush emits the pending
comments. -/
theorem C4_line_comment_buffering_witness :
    (splitStep "-- note".toList 0 { initSplitter with hasContent := true }).2 =
      { initSplitter with hasContent := true } ∧
    (splitStep "-- note".toList 0 initSplitter).2.pendingComments = ["note".toList] ∧
    (flushCurrent { initSplitter with
                    current := " id ".toList,
                    pendingComments := ["c".toList] }).elements =
      [⟨"id".toList, ["c".toList]⟩] := by
  have h := C4_line_comment_buffering
  refine ⟨(h.1 "-- note".toList 0 _ rfl rfl rfl rfl (by decide) (by decide)).1 rfl, ?_, ?_⟩
  · have h2 := (h.1 "-- note".toList 0 initSplitter rfl rfl rfl rfl
      (by decide) (by decide)).2 rfl
    rw [h2.2.2]
    decide
  · have h3 := h.2.1 { initSplitter with
                       current := " id ".toList,
                       pendingComments := ["c".toList] } (by decide)
    rw [h3.1]
    decide

theorem splitStep_inDollar_char {runes : List Char} {i : Nat}
    {s : createTableElementSplitter} {r : Char} (hget : runes.get? i = some r)
    (hbc : s.inBlockComment = false) (hdl : s.inDollar = true) (hr : r ≠ '$') :
    splitStep runes i s = (i + 1, { s with current := s.current ++ [r] }) := by
  have hcond : ¬ (r = '$' ∧ hasDollarTerminator runes i s.dollarTag = true) :=
    fun hc => hr hc.1
  unfold splitStep
  rw [hget]
  simp [hbc, hdl, hcond]

theorem splitStep_inSingle_char {runes : List Char} {i : Nat}
    {s : createTableElementSplitter} {r : Char} (hget : runes.get? i = some r)
    (hbc : s.inBlockComment = false) (hdl : s.inDollar = false)
    (hsg : s.inSingle = true) (hr : r ≠ '\'') :
    splitStep runes i s = (i + 1, { s with current := s.current ++ [r] }) := by
  unfold splitStep
  rw [hget]
  simp [hbc, hdl, hsg, hr]

theorem splitStep_inDouble_char {runes : List Char} {i : Nat}
    {s : createTableElementSplitter} {r : Char} (hget : runes.get? i = some r)
    (hbc : s.inBlockComment = false) (hdl : s.inDollar = false)
    (hsg : s.inSingle = false) (hdb : s.inDouble = true) (hr : r ≠ '"') :
    splitStep runes i s = (i + 1, { s with current := s.current ++ [r] }) := by
  unfold splitStep
  rw [hget]
  simp [hbc, hdl, hsg, hdb, hr]

theorem splitLoop_inSingle_untouched (runes : List Char) :
    ∀ (fuel i : Nat) (s : createTableElementSplitter),
    s.inBlockComment = false → s.inDollar = false → s.inSingle = true →
    (∀ c ∈ runes.drop i, c ≠ '\'') →
    (splitLoop runes fuel i s).elements = s.elements := by
  intro fuel
  induction fuel with
  | zero => intro i s _ _ _ _; rfl
  | succ n ih =>
    intro i s hbc hdl hsg hnoq
    unfold splitLoop
    split
    · rename_i hlt
      have hget : runes.get? i = some (runes.get ⟨i, hlt⟩) := List.get?_eq_get hlt
      have hdropget : (runes.drop i).get? 0 = runes.get? i := by
        simp [List.get?_eq_getElem?, List.getElem?_drop]
      have hmem : runes.get ⟨i, hlt⟩ ∈ runes.drop i :=
        List.get?_mem (hdropget.trans hget)
      have hr : runes.get ⟨i, hlt⟩ ≠ '\'' := hnoq _ hmem
      rw [splitStep_inSingle_char hget hbc hdl hsg hr]
      refine ih (i + 1) _ hbc hdl hsg ?_
      intro c hc
      apply hnoq
      apply List.mem_of_mem_drop (n := 1)
      rw [List.drop_drop]
      exact hc
    · rfl

/-- C9: splitter scan invariants: the parenthesis depth never becomes
negative; a ')' met at depth 0 in normal mode keeps depth 0 and is kept as
element text; and a comma inside a single-, double- or dollar-quoted region —
including a region left unterminated to the end of the input — never
terminates an element and is copied verbatim into the current element. -/
theorem C9_splitter_invariants :
    (∀ (runes : List Char) (fuel i : Nat) (s : createTableElementSplitter),
      0 ≤ s.depth → 0 ≤ (splitLoop runes fuel i s).depth) ∧
    (∀ (runes : List Char) (i : Nat) (s : createTableElementSplitter),
      s.inBlockComment = false → s.inDollar = false → s.inSingle = false →
      s.inDouble = false → s.depth = 0 → runes.get? i = some ')' →
      (splitStep runes i s).2.depth = 0 ∧
      (splitStep runes i s).2.current = s.current ++ [')'] ∧
      (splitStep runes i s).2.elements = s.elements) ∧
    (∀ (runes : List Char) (i : Nat) (s : createTableElementSplitter),
      runes.get? i = some ',' → s.inBlockComment = false →
      (s.inDollar = true →
        (splitStep runes i s).2.elements = s.elements ∧
        (splitStep runes i s).2.current = s.current ++ [',']) ∧
      (s.inDollar = false → s.inSingle = true →
        (splitStep runes i s).2.elements = s.elements ∧
        (splitStep runes i s).2.current = s.current ++ [',']) ∧
      (s.inDollar = false → s.inSingle = false → s.inDouble = true →
        (splitStep runes i s).2.elements = s.elements ∧
        (splitStep runes i s).2.current = s.current ++ [','])) ∧
    (∀ (runes : List Char) (fuel i : Nat) (s : createTableElementSplitter),
      s.inBlockComment = false → s.inDollar = false → s.inSingle = true →
      (∀ c ∈ runes.drop i, c ≠ '\'') →
      (splitLoop runes fuel i s).elements = s.elements) := by
  refine ⟨fun runes fuel i s h => splitLoop_depth_nonneg runes fuel i s h, ?_, ?_,
    fun runes fuel i s hbc hdl hsg hnoq =>
      splitLoop_inSingle_untouched runes fuel i s hbc hdl hsg hnoq⟩
  · intro runes i s hbc hdl hsg hdb hdepth hget
    have hstep : splitStep runes i s =
        (i + 1, { s with current := s.current ++ [')'], hasContent := true }) := by
      unfold splitStep
      rw [hget]
      have h5 : ¬ ((')' : Char) = '-' ∧ runes.get? (i + 1) = some '-') := by
        rintro ⟨hc, -⟩; exact absurd hc (by decide)
      have h6 : ¬ ((')' : Char) = '/' ∧ runes.get? (i + 1) = some '*') := by
        rintro ⟨hc, -⟩; exact absurd hc (by decide)
      have h11 : ¬ ((')' : Char) = ')' ∧ 0 < s.depth) := by
        rintro ⟨-, hc⟩; omega
      have h9 : ¬ ((')' : Char) = ',' ∧ s.depth = 0) := by
        rintro ⟨hc, -⟩; exact absurd hc (by decide)
      have hsp : isGoSpace ')' = false := by decide
      simp [hbc, hdl, hsg, hdb, h5, h6, h9, h11, hdepth, hsp]
    rw [hstep]
    exact ⟨hdepth, rfl, rfl⟩
  · intro runes i s hget hbc
    refine ⟨?_, ?_, ?_⟩
    · intro hdl
      rw [splitStep_inDollar_char hget hbc hdl (by decide)]
      exact ⟨rfl, rfl⟩
    · intro hdl hsg
      rw [splitStep_inSingle_char hget hbc hdl hsg (by decide)]
      exact ⟨rfl, rfl⟩
    · intro hdl hsg hdb
      rw [splitStep_inDouble_char hget hbc hdl hsg hdb (by decide)]
      exact ⟨rfl, rfl⟩

/-- Witness for C9 at concrete inputs: depth stays non-negative on a body
with an unmatched ')', the ')' at depth 0 is kept as text, and commas inside
quoted regions are copied verbatim. -/
theorem C9_splitter_invariants_witness :
    0 ≤ (splitLoop ") a, b".toList 5 0 initSplitter).depth ∧
    (splitStep ")".toList 0 initSplitter).2.current = [')'] ∧
    (splitStep ",".toList 0 { initSplitter with inSingle := true }).2.elements = [] ∧
    (splitStep ",".toList 0 { initSplitter with inDouble := true }).2.current = [','] ∧
    (splitStep ",".toList 0
      { initSplitter with inDollar := true, dollarTag := "t".toList }).2.elements = [] ∧
    (splitLoop "abc".toList 3 0 { initSplitter with inSingle := true }).elements = [] := by
  have h := C9_splitter_invariants
  refine ⟨h.1 ") a, b".toList 5 0 initSplitter (by decide), ?_, ?_, ?_, ?_, ?_⟩
  · have := (h.2.1 ")".toList 0 initSplitter rfl rfl rfl rfl rfl (by decide)).2.1
    rw [this]
    decide
  · exact ((h.2.2.1 ",".toList 0 _ (by decide) rfl).2.1 rfl rfl).1
  · have := ((h.2.2.1 ",".toList 0 { initSplitter with inDouble := true }
      (by decide) rfl).2.2 rfl rfl rfl).2
    rw [this]
    decide
  · exact ((h.2.2.1 ",".toList 0 _ (by decide) rfl).1 rfl).1
  · exact h.2.2.2 "abc".toList 3 0 _ rfl rfl rfl (by decide)

theorem commentsMap_filter_eq :
    ∀ (elems : List createTableElementComments) (m : List (List Char × List (List Char))),
    commentsMapFromElements elems m =
      commentsMapFromElements
        (elems.filter
          (fun e => !(extractCreateTableColumnNameFromElement e.element).isEmpty)) m := by
  intro elems
  induction elems with
  | nil => intro m; rfl
  | cons e rest ih =>
    intro m
    by_cases hcol : (extractCreateTableColumnNameFromElement e.element).isEmpty = true
    · have hfilter : (e :: rest).filter
          (fun e => !(extractCreateTableColumnNameFromElement e.element).isEmpty) =
          rest.filter
            (fun e => !(extractCreateTableColumnNameFromElement e.element).isEmpty) := by
        simp [List.filter_cons, hcol]
      rw [hfilter]
      simp only [commentsMapFromElements]
      by_cases hcm : e.comments.isEmpty = true
      · simp only [hcm, if_true]
        exact ih m
      · have hcm2 : e.comments.isEmpty = false := by simpa using hcm
        simp only [hcm2, Bool.false_eq_true, if_false, hcol, if_true]
        exact ih m
    · have hcol2 : (extractCreateTableColumnNameFromElement e.element).isEmpty = false := by
        simpa using hcol
      have hfilter : (e :: rest).filter
          (fun e => !(extractCreateTableColumnNameFromElement e.element).isEmpty) =
          e :: rest.filter
            (fun e => !(extractCreateTableColumnNameFromElement e.element).isEmpty) := by
        simp [List.filter_cons, hcol2]
      rw [hfilter]
      simp only [commentsMapFromElements]
      by_cases hcm : e.comments.isEmpty = true
      · simp only [hcm, if_true]
        exact ih m
      · have hcm2 : e.comments.isEmpty = false := by simpa using hcm
        simp only [hcm2, hcol2, Bool.false_eq_true, if_false]
        by_cases hnorm : (normalizeCreateTableColumnName
            (extractCreateTableColumnNameFromElement e.element)).isEmpty = true
        · simp only [hnorm, if_true]
          exact ih m
        · have hnorm2 : (normalizeCreateTableColumnName
              (extractCreateTableColumnNameFromElement e.element)).isEmpty = false := by
            simpa using hnorm
          simp only [hnorm2, Bool.false_eq_true, if_false]
          by_cases hlines : ((e.comments.map goTrimSpace).filter
              (fun l => !l.isEmpty)).isEmpty = true
          · simp only [hlines, if_true]
            exact ih m
          · have hlines2 : ((e.comments.map goTrimSpace).filter
                (fun l => !l.isEmpty)).isEmpty = false := by
              simpa using hlines
            simp only [hlines2, Bool.false_eq_true, if_false]
            exact ih _

/-- C7: comments are never attributed to table-level constraints: an element
whose leading identifier token normalizes to a constraint introducer keyword
yields no column name; the column-comment map ignores every element without a
column name; and on the example statement the comment preceding the
CONSTRAINT element appears in no map entry. -/
theorem C7_constraints_get_no_comments :
    (∀ element : List Char,
      isCreateTableConstraintToken (readLeadingIdentifierToken (goTrimSpace element)) = true →
      extractCreateTableColumnNameFromElement element = []) ∧
    (∀ (elems : List createTableElementComments) (m : List (List Char × List (List Char))),
      commentsMapFromElements elems m =
        commentsMapFromElements
          (elems.filter
            (fun e => !(extractCreateTableColumnNameFromElement e.element).isEmpty)) m) ∧
    extractCreateTableFieldCommentsByColumn
      ("CREATE TABLE users (\n-- keep\nid integer,\n-- should not attach\n" ++
        "CONSTRAINT users_pk PRIMARY KEY (id)\n)").toList =
      [("id".toList, ["keep".toList])] := by
  refine ⟨?_, commentsMap_filter_eq, by decide⟩
  intro element hconstraint
  unfold extractCreateTableColumnNameFromElement
  by_cases htr : (goTrimSpace element).isEmpty = true
  · rw [if_pos htr]
  · rw [if_neg htr]
    by_cases htok : (readLeadingIdentifierToken (goTrimSpace element)).isEmpty = true
    · rw [if_pos htok]
    · rw [if_neg htok, if_pos hconstraint]

/-- Witness for C7: the CONSTRAINT element yields no column name, and the map
construction on a concrete element list with a constraint element drops its
comment. -/
theorem C7_constraints_get_no_comments_witness :
    extractCreateTableColumnNameFromElement
      "CONSTRAINT users_pk PRIMARY KEY (id)".toList = [] ∧
    commentsMapFromElements
      [⟨"CONSTRAINT users_pk PRIMARY KEY (id)".toList, ["dropped".toList]⟩,
       ⟨"id integer".toList, ["kept".toList]⟩] [] =
      commentsMapFromElements
        ([⟨"CONSTRAINT users_pk PRIMARY KEY (id)".toList, ["dropped".toList]⟩,
          ⟨"id integer".toList, ["kept".toList]⟩].filter
          (fun e => !(extractCreateTableColumnNameFromElement e.element).isEmpty)) [] := by
  constructor
  · exact C7_constraints_get_no_comments.1
      "CONSTRAINT users_pk PRIMARY KEY (id)".toList (by decide)
  · exact C7_constraints_get_no_comments.2.1
      [⟨"CONSTRAINT users_pk PRIMARY KEY (id)".toList, ["dropped".toList]⟩,
       ⟨"id integer".toList, ["kept".toList]⟩] []

end PG
